import Mathlib

/-!
Verification of the HMIP binary protocol core (frame codec, message codec,
reconnect backoff) of the Three-summers/hmi repository.

The Rust source (src-tauri/src/comm/proto.rs and actor.rs) is shallowly
embedded: bytes are naturals (a valid byte is < 256), byte buffers are
lists of naturals, machine-integer casts are explicit mod 2^32, fallible
operations return Except, and the stateful FrameDecoder becomes explicit
state passing.  Rust format-string error messages are embedded as the
inductive ErrKind recording the same data that the message interpolates.
-/

namespace HMI

/-! ## Wire constants (proto.rs lines 22-28) -/

/-- MAGIC = b"HMIP" = [0x48, 0x4D, 0x49, 0x50]. -/
def MAGIC : List Nat := [72, 77, 73, 80]

def VERSION : Nat := 1

def FLAG_CRC32 : Nat := 0x01

def HEADER_LEN_BASE : Nat := 16

def HEADER_LEN_WITH_CRC : Nat := 20

/-! ## Data model (proto.rs lines 30-73) -/

structure FrameHeader where
  msg_type : Nat
  flags : Nat
  channel : Nat
  seq : Nat
  payload_len : Nat
  payload_crc32 : Option Nat
deriving DecidableEq, Repr

structure Frame where
  header : FrameHeader
  payload : List Nat
deriving DecidableEq, Repr

/-- Tags for the Rust DecodeError message strings; each constructor keeps the
data that the corresponding format! interpolates. -/
inductive ErrKind where
  | bufferOverflow (maxBufferLen : Nat)
  | resyncNotFound
  | resyncDropped
  | payloadTooLarge (len maxLen : Nat)
  | crcMismatch (expected actual : Nat)
deriving DecidableEq, Repr

structure DecodeError where
  kind : ErrKind
  dropped_bytes : Nat
deriving DecidableEq, Repr

structure DecoderConfig where
  max_payload_len : Nat
  max_buffer_len : Nat
deriving DecidableEq, Repr

/-- DecoderConfig::default(). -/
def DecoderConfig.default : DecoderConfig :=
  { max_payload_len := 8 * 1024 * 1024, max_buffer_len := 16 * 1024 * 1024 }

structure FrameDecoder where
  cfg : DecoderConfig
  buf : List Nat
deriving DecidableEq, Repr

/-- FrameDecoder::new. -/
def FrameDecoder.new (cfg : DecoderConfig) : FrameDecoder := ⟨cfg, []⟩

/-! ## Little-endian readers (u32::from_le_bytes / u64::from_le_bytes) -/

def readLe32 (b : List Nat) (i : Nat) : Nat :=
  b.getD i 0 + 256 * b.getD (i + 1) 0 + 65536 * b.getD (i + 2) 0 +
    16777216 * b.getD (i + 3) 0

def readLe64 (b : List Nat) (i : Nat) : Nat :=
  readLe32 b i + 4294967296 * readLe32 b (i + 4)

/-- u32::to_le_bytes (the u32 value of n, i.e. n mod 2^32, little endian). -/
def le32 (n : Nat) : List Nat :=
  [n % 256, n / 256 % 256, n / 65536 % 256, n / 16777216 % 256]

/-- u16::to_le_bytes. -/
def le16 (n : Nat) : List Nat := [n % 256, n / 256 % 256]

/-- u64::to_le_bytes. -/
def le64 (n : Nat) : List Nat :=
  le32 n ++ le32 (n / 4294967296)

/-! ## CRC32 (crc32fast: standard reflected CRC-32, poly 0xEDB88320,
init 0xFFFFFFFF, final xor 0xFFFFFFFF), modelled bit-by-bit. -/

def CRC_POLY : Nat := 0xEDB88320

/-- One shift-xor round of the reflected CRC-32 bit loop. -/
def crcG (s : Nat) : Nat :=
  (s >>> 1) ^^^ (if s &&& 1 = 1 then CRC_POLY else 0)

/-- Absorb one byte: xor it into the state and run 8 bit rounds. -/
def crcByteStep (s b : Nat) : Nat := crcG^[8] (s ^^^ b)

/-- crc32_bytes (proto.rs lines 244-248). -/
def crc32_bytes (bytes : List Nat) : Nat :=
  (bytes.foldl crcByteStep 0xFFFFFFFF) ^^^ 0xFFFFFFFF

/-! ## find_magic (proto.rs lines 250-266): first offset where MAGIC occurs. -/

def findMagicAux (i : Nat) : List Nat → Option Nat
  | [] => none
  | b :: rest =>
    if (b :: rest).take 4 = MAGIC then some i else findMagicAux (i + 1) rest

def find_magic (buf : List Nat) : Option Nat := findMagicAux 0 buf

/-! ## FrameDecoder::push (proto.rs lines 83-103) -/

def FrameDecoder.push (d : FrameDecoder) (bytes : List Nat) :
    FrameDecoder × Except DecodeError Unit :=
  if bytes = [] then (d, .ok ())
  else if d.buf.length + bytes.length > d.cfg.max_buffer_len then
    ({ d with buf := [] },
     .error ⟨.bufferOverflow d.cfg.max_buffer_len, d.buf.length⟩)
  else ({ d with buf := d.buf ++ bytes }, .ok ())

/-! ## FrameDecoder::next_frame (proto.rs lines 110-241)

The Rust loop is split into `parseAligned` (the straight-line part from the
header-length check to the frame construction, lines 156-239) and
`nextFrameLoop` (the outer loop including resynchronization, lines 113-153).
`LoopStep.retry` is the version-mismatch `continue` (drop 1 byte, restart). -/

inductive LoopStep where
  | done (buf : List Nat) (res : Except DecodeError (Option Frame))
  | retry (buf : List Nat) (dropped : Nat)

def parseAligned (cfg : DecoderConfig) (buf : List Nat) (dropped : Nat) :
    LoopStep :=
  if buf.length < HEADER_LEN_BASE then .done buf (.ok none)
  else if buf.getD 4 0 ≠ VERSION then .retry (buf.drop 1) (dropped + 1)
  else
    let mt := buf.getD 5 0
    let fl := buf.getD 6 0
    let ch := buf.getD 7 0
    let seq := readLe32 buf 8
    let payload_len := readLe32 buf 12
    let has_crc := fl &&& FLAG_CRC32 ≠ 0
    let header_len := if has_crc then HEADER_LEN_WITH_CRC else HEADER_LEN_BASE
    if buf.length < header_len then .done buf (.ok none)
    else if payload_len > cfg.max_payload_len then
      .done (buf.drop 1)
        (.error ⟨.payloadTooLarge payload_len cfg.max_payload_len, dropped + 1⟩)
    else
      let frame_len := header_len + payload_len
      if buf.length < frame_len then .done buf (.ok none)
      else
        let frame_bytes := buf.take frame_len
        let rest := buf.drop frame_len
        let payload := frame_bytes.drop header_len
        let payload_crc32 :=
          if has_crc then some (readLe32 frame_bytes 16) else none
        match payload_crc32 with
        | some expected =>
          let actual := crc32_bytes payload
          if actual ≠ expected then
            .done rest (.error ⟨.crcMismatch expected actual, dropped⟩)
          else
            .done rest (.ok (some ⟨⟨mt, fl, ch, seq, payload_len, some expected⟩,
              payload⟩))
        | none =>
          .done rest (.ok (some ⟨⟨mt, fl, ch, seq, payload_len, none⟩, payload⟩))

def nextFrameLoop (cfg : DecoderConfig) :
    Nat → List Nat → Nat → List Nat × Except DecodeError (Option Frame)
  | 0, buf, _ => (buf, .ok none)
  | fuel + 1, buf, dropped =>
    if buf.length < MAGIC.length then (buf, .ok none)
    else if buf.take MAGIC.length = MAGIC then
      match parseAligned cfg buf dropped with
      | .done buf' r => (buf', r)
      | .retry buf' dropped' => nextFrameLoop cfg fuel buf' dropped'
    else
      match find_magic buf with
      | some n =>
        let buf' := buf.drop n
        let dropped' := dropped + n
        if dropped' > 0 then (buf', .error ⟨.resyncDropped, dropped'⟩)
        else
          match parseAligned cfg buf' dropped' with
          | .done buf'' r => (buf'', r)
          | .retry buf'' dropped'' => nextFrameLoop cfg fuel buf'' dropped''
      | none =>
        let keep := MAGIC.length - 1
        if buf.length > keep then
          let n := buf.length - keep
          (buf.drop n, .error ⟨.resyncNotFound, dropped + n⟩)
        else (buf, .error ⟨.resyncNotFound, dropped⟩)

def FrameDecoder.next_frame (d : FrameDecoder) :
    FrameDecoder × Except DecodeError (Option Frame) :=
  let r := nextFrameLoop d.cfg (d.buf.length + 1) d.buf 0
  ({ d with buf := r.1 }, r.2)

/-! ## encode_frame (proto.rs lines 268-300) -/

structure EncodeFrameParams where
  msg_type : Nat
  flags : Nat
  channel : Nat
  seq : Nat
  payload : List Nat
deriving DecidableEq, Repr

def encode_frame (p : EncodeFrameParams) : List Nat :=
  let has_crc := p.flags &&& FLAG_CRC32 ≠ 0
  MAGIC ++ [VERSION, p.msg_type, p.flags, p.channel] ++ le32 p.seq ++
    le32 (p.payload.length % 2 ^ 32) ++
    (if has_crc then le32 (crc32_bytes p.payload) else []) ++ p.payload

/-- The Frame that decoding an encoded valid frame is expected to produce. -/
def expectedFrame (p : EncodeFrameParams) : Frame :=
  ⟨⟨p.msg_type, p.flags, p.channel, p.seq, p.payload.length,
    if p.flags &&& FLAG_CRC32 ≠ 0 then some (crc32_bytes p.payload) else none⟩,
   p.payload⟩

/-- A frame parameter record the Rust types and the decoder's config make
well-formed: u8/u32 fields in range, byte-valued payload, payload length
within the decoder limit and expressible as u32, and the whole encoded
frame fitting in the decoder buffer. -/
def ValidParams (cfg : DecoderConfig) (p : EncodeFrameParams) : Prop :=
  p.msg_type < 256 ∧ p.flags < 256 ∧ p.channel < 256 ∧ p.seq < 2 ^ 32 ∧
    (∀ b ∈ p.payload, b < 256) ∧ p.payload.length ≤ cfg.max_payload_len ∧
    p.payload.length < 2 ^ 32 ∧ (encode_frame p).length ≤ cfg.max_buffer_len

instance (cfg : DecoderConfig) (p : EncodeFrameParams) :
    Decidable (ValidParams cfg p) := by
  unfold ValidParams; infer_instance

/-! ## Message model (proto.rs lines 302-393).  Rust String fields are
embedded as their UTF-8 byte lists (decoding checks validity explicitly). -/

namespace msg_type

def HELLO : Nat := 0x01
def HELLO_ACK : Nat := 0x02
def HEARTBEAT : Nat := 0x03
def REQUEST : Nat := 0x10
def RESPONSE : Nat := 0x11
def EVENT : Nat := 0x20
def ERROR : Nat := 0x7F

end msg_type

inductive Role where
  | Client
  | Server
deriving DecidableEq, Repr

def Role.as_u8 : Role → Nat
  | .Client => 0
  | .Server => 1

def Role.from_u8 (v : Nat) : Option Role :=
  if v = 0 then some .Client else if v = 1 then some .Server else none

structure Hello where
  role : Role
  capabilities : Nat
  name : List Nat
deriving DecidableEq, Repr

structure HelloAck where
  capabilities : Nat
  name : List Nat
deriving DecidableEq, Repr

structure Heartbeat where
  timestamp_ms : Nat
deriving DecidableEq, Repr

structure Request where
  request_id : Nat
  method : Nat
  body : List Nat
deriving DecidableEq, Repr

structure Response where
  request_id : Nat
  status : Nat
  body : List Nat
deriving DecidableEq, Repr

structure Event where
  event_id : Nat
  timestamp_ms : Nat
  body : List Nat
deriving DecidableEq, Repr

structure ProtoError where
  code : Nat
  message : List Nat
deriving DecidableEq, Repr

inductive Message where
  | hello (h : Hello)
  | helloAck (a : HelloAck)
  | heartbeat (hb : Heartbeat)
  | request (r : Request)
  | response (r : Response)
  | event (e : Event)
  | protoErr (e : ProtoError)
  | raw (msg_type : Nat) (payload : List Nat)
deriving DecidableEq, Repr

/-- Tags for the Rust MessageDecodeError strings. -/
inductive MessageDecodeError where
  | helloTooShort
  | helloInvalidRole
  | helloNameTruncated
  | helloNameNotUtf8
  | helloAckTooShort
  | helloAckNameTruncated
  | helloAckNameNotUtf8
  | heartbeatBadLen
  | requestTooShort
  | responseTooShort
  | eventTooShort
  | errorTooShort
  | errorMessageTruncated
  | errorMessageNotUtf8
deriving DecidableEq, Repr

/-! UTF-8 validity of a byte list, as checked by std::str::from_utf8
(rejecting overlong forms, surrogates and values above U+10FFFF). -/

def utf8ContB (c : Nat) : Bool := 0x80 ≤ c && c ≤ 0xBF

def utf8Valid : List Nat → Bool
  | [] => true
  | b :: rest =>
    if b ≤ 0x7F then utf8Valid rest
    else if 0xC2 ≤ b && b ≤ 0xDF then
      match rest with
      | c1 :: r => utf8ContB c1 && utf8Valid r
      | [] => false
    else if 0xE0 ≤ b && b ≤ 0xEF then
      match rest with
      | c1 :: c2 :: r =>
        (if b = 0xE0 then 0xA0 ≤ c1 && c1 ≤ 0xBF
         else if b = 0xED then 0x80 ≤ c1 && c1 ≤ 0x9F
         else utf8ContB c1) && utf8ContB c2 && utf8Valid r
      | _ => false
    else if 0xF0 ≤ b && b ≤ 0xF4 then
      match rest with
      | c1 :: c2 :: c3 :: r =>
        (if b = 0xF0 then 0x90 ≤ c1 && c1 ≤ 0xBF
         else if b = 0xF4 then 0x80 ≤ c1 && c1 ≤ 0x8F
         else utf8ContB c1) && utf8ContB c2 && utf8ContB c3 && utf8Valid r
      | _ => false
    else false

/-! ## Message decoders (proto.rs lines 395-524) -/

def decode_hello (payload : List Nat) : Except MessageDecodeError Hello :=
  if payload.length < 1 + 4 + 1 then .error .helloTooShort
  else
    match Role.from_u8 (payload.getD 0 0) with
    | none => .error .helloInvalidRole
    | some role =>
      let capabilities := readLe32 payload 1
      let name_len := payload.getD 5 0
      if payload.length < 6 + name_len then .error .helloNameTruncated
      else
        let name_bytes := (payload.drop 6).take name_len
        if utf8Valid name_bytes then .ok ⟨role, capabilities, name_bytes⟩
        else .error .helloNameNotUtf8

def decode_hello_ack (payload : List Nat) : Except MessageDecodeError HelloAck :=
  if payload.length < 4 + 1 then .error .helloAckTooShort
  else
    let capabilities := readLe32 payload 0
    let name_len := payload.getD 4 0
    if payload.length < 5 + name_len then .error .helloAckNameTruncated
    else
      let name_bytes := (payload.drop 5).take name_len
      if utf8Valid name_bytes then .ok ⟨capabilities, name_bytes⟩
      else .error .helloAckNameNotUtf8

def decode_heartbeat (payload : List Nat) : Except MessageDecodeError Heartbeat :=
  if payload.length ≠ 8 then .error .heartbeatBadLen
  else .ok ⟨readLe64 payload 0⟩

def decode_request (payload : List Nat) : Except MessageDecodeError Request :=
  if payload.length < 8 then .error .requestTooShort
  else .ok ⟨readLe32 payload 0, payload.getD 4 0 + 256 * payload.getD 5 0,
    payload.drop 8⟩

def decode_response (payload : List Nat) : Except MessageDecodeError Response :=
  if payload.length < 8 then .error .responseTooShort
  else .ok ⟨readLe32 payload 0, payload.getD 4 0 + 256 * payload.getD 5 0,
    payload.drop 8⟩

def decode_event (payload : List Nat) : Except MessageDecodeError Event :=
  if payload.length < 12 then .error .eventTooShort
  else .ok ⟨payload.getD 0 0 + 256 * payload.getD 1 0, readLe64 payload 4,
    payload.drop 12⟩

def decode_error (payload : List Nat) : Except MessageDecodeError ProtoError :=
  if payload.length < 2 + 2 + 2 then .error .errorTooShort
  else
    let code := payload.getD 0 0 + 256 * payload.getD 1 0
    let msg_len := payload.getD 4 0 + 256 * payload.getD 5 0
    if payload.length < 6 + msg_len then .error .errorMessageTruncated
    else
      let msg_bytes := (payload.drop 6).take msg_len
      if utf8Valid msg_bytes then .ok ⟨code, msg_bytes⟩
      else .error .errorMessageNotUtf8

def decode_message (frame : Frame) : Except MessageDecodeError Message :=
  let payload := frame.payload
  if frame.header.msg_type = msg_type.HELLO then
    (decode_hello payload).map .hello
  else if frame.header.msg_type = msg_type.HELLO_ACK then
    (decode_hello_ack payload).map .helloAck
  else if frame.header.msg_type = msg_type.HEARTBEAT then
    (decode_heartbeat payload).map .heartbeat
  else if frame.header.msg_type = msg_type.REQUEST then
    (decode_request payload).map .request
  else if frame.header.msg_type = msg_type.RESPONSE then
    (decode_response payload).map .response
  else if frame.header.msg_type = msg_type.EVENT then
    (decode_event payload).map .event
  else if frame.header.msg_type = msg_type.ERROR then
    (decode_error payload).map .protoErr
  else .ok (.raw frame.header.msg_type payload)

/-! ## Message encoders (proto.rs lines 526-588) -/

def encode_hello (h : Hello) : List Nat :=
  let name_bytes := h.name
  let name_len := min name_bytes.length 255
  [h.role.as_u8] ++ le32 h.capabilities ++ [name_len] ++ name_bytes.take name_len

def encode_hello_ack (a : HelloAck) : List Nat :=
  let name_len := min a.name.length 255
  le32 a.capabilities ++ [name_len] ++ a.name.take name_len

def encode_heartbeat (hb : Heartbeat) : List Nat := le64 hb.timestamp_ms

def encode_request (r : Request) : List Nat :=
  le32 r.request_id ++ le16 r.method ++ [0, 0] ++ r.body

def encode_response (r : Response) : List Nat :=
  le32 r.request_id ++ le16 r.status ++ [0, 0] ++ r.body

def encode_event (e : Event) : List Nat :=
  le16 e.event_id ++ [0, 0] ++ le64 e.timestamp_ms ++ e.body

def encode_error (e : ProtoError) : List Nat :=
  let msg_len := min e.message.length 65535
  le16 e.code ++ [0, 0] ++ le16 msg_len ++ e.message.take msg_len

/-! ## Backoff policy (actor.rs lines 19-20, 164-168) -/

def RECONNECT_MIN_DELAY_MS : Nat := 200

def RECONNECT_MAX_DELAY_MS : Nat := 5000

def compute_backoff_ms (attempt : Nat) : Nat :=
  let exp := min attempt 6
  let base := min (RECONNECT_MIN_DELAY_MS * (1 <<< exp)) (2 ^ 64 - 1)
  min base RECONNECT_MAX_DELAY_MS

/-! ## Arithmetic and list helper lemmas -/

/-- Flip bit j of the byte at index i. -/
def flipBitAt (l : List Nat) (i j : Nat) : List Nat :=
  l.set i (l.getD i 0 ^^^ (1 <<< j))

/-- The header part of an encoded frame (everything before the payload). -/
def encHeader (p : EncodeFrameParams) : List Nat :=
  MAGIC ++ [VERSION, p.msg_type, p.flags, p.channel] ++ le32 p.seq ++
    le32 (p.payload.length % 2 ^ 32) ++
    (if p.flags &&& FLAG_CRC32 ≠ 0 then le32 (crc32_bytes p.payload) else [])

/-- Call next_frame repeatedly, collecting resync errors, until it yields a
frame (some) or reports that data is insufficient (none). -/
def runToFrame : Nat → FrameDecoder → List DecodeError × Option (Frame × FrameDecoder)
  | 0, _ => ([], none)
  | fuel + 1, d =>
    match d.next_frame with
    | (d', .ok (some f)) => ([], some (f, d'))
    | (_, .ok none) => ([], none)
    | (d', .error e) =>
      let r := runToFrame fuel d'
      (e :: r.1, r.2)

def helloErrSpec (p : List Nat) : Prop :=
  p.length < 6 ∨ Role.from_u8 (p.getD 0 0) = none ∨ p.length < 6 + p.getD 5 0 ∨
    ¬ utf8Valid ((p.drop 6).take (p.getD 5 0))

def helloAckErrSpec (p : List Nat) : Prop :=
  p.length < 5 ∨ p.length < 5 + p.getD 4 0 ∨
    ¬ utf8Valid ((p.drop 5).take (p.getD 4 0))

def heartbeatErrSpec (p : List Nat) : Prop := p.length ≠ 8

def requestErrSpec (p : List Nat) : Prop := p.length < 8

def responseErrSpec (p : List Nat) : Prop := p.length < 8

def eventErrSpec (p : List Nat) : Prop := p.length < 12

def errorMsgErrSpec (p : List Nat) : Prop :=
  p.length < 6 ∨ p.length < 6 + (p.getD 4 0 + 256 * p.getD 5 0) ∨
    ¬ utf8Valid ((p.drop 6).take (p.getD 4 0 + 256 * p.getD 5 0))

/-- The concatenated wire bytes of a list of frames. -/
def streamBytes : List EncodeFrameParams → List Nat
  | [] => []
  | p :: ps => encode_frame p ++ streamBytes ps

/-- Concatenate a list of push chunks. -/
def flat : List (List Nat) → List Nat
  | [] => []
  | c :: cs => c ++ flat cs

/-- Drain next_frame until it stops yielding frames. -/
def drainFramesAux : Nat → FrameDecoder → FrameDecoder × List Frame
  | 0, d => (d, [])
  | fuel + 1, d =>
    match d.next_frame with
    | (d', .ok (some f)) =>
      let r := drainFramesAux fuel d'
      (r.1, f :: r.2)
    | (d', .ok none) => (d', [])
    | (d', .error _) => (d', [])

def drainAll (d : FrameDecoder) : FrameDecoder × List Frame :=
  drainFramesAux (d.buf.length + 1) d

/-- Push each chunk in order, draining all available frames after each
push; collect the decoded frames. -/
def pushAndDrainAll : FrameDecoder → List (List Nat) → FrameDecoder × List Frame
  | d, [] => (d, [])
  | d, c :: cs =>
    match d.push c with
    | (d1, .ok _) =>
      let r1 := drainAll d1
      let r2 := pushAndDrainAll r1.1 cs
      (r2.1, r1.2 ++ r2.2)
    | (d1, .error _) => pushAndDrainAll d1 cs

theorem le32_recompose (n : Nat) (h : n < 2 ^ 32) :
    n % 256 + 256 * (n / 256 % 256) + 65536 * (n / 65536 % 256) +
      16777216 * (n / 16777216 % 256) = n := by
  omega

theorem shiftLeft_one_eq (e : Nat) : (1 <<< e) = 2 ^ e := by
  rw [Nat.shiftLeft_eq, one_mul]

/-! ## CRC-32 theory: the bit round is GF(2)-linear, injective below 2^32,
and therefore separates byte lists differing in a single bit. -/

theorem shiftRight_xor (a b : Nat) :
    (a ^^^ b) >>> 1 = (a >>> 1) ^^^ (b >>> 1) :=
  Nat.eq_of_testBit_eq fun i => by
    simp [Nat.testBit_shiftRight, Nat.testBit_xor]

theorem and_one_xor (a b : Nat) :
    (a ^^^ b) &&& 1 = (a &&& 1) ^^^ (b &&& 1) :=
  Nat.and_xor_distrib_right ..

theorem xor_left_comm (a b c : Nat) : a ^^^ (b ^^^ c) = b ^^^ (a ^^^ c) := by
  rw [← Nat.xor_assoc, Nat.xor_comm a b, Nat.xor_assoc]

theorem xor_cancel_left (a b : Nat) : a ^^^ (a ^^^ b) = b := by
  rw [← Nat.xor_assoc, Nat.xor_self, Nat.zero_xor]

theorem crcG_linear (a b : Nat) : crcG (a ^^^ b) = crcG a ^^^ crcG b := by
  unfold crcG
  rw [shiftRight_xor, and_one_xor]
  have ha : a &&& 1 = a % 2 := Nat.and_one_is_mod a
  have hb : b &&& 1 = b % 2 := Nat.and_one_is_mod b
  rcases Nat.mod_two_eq_zero_or_one a with h1 | h1 <;>
    rcases Nat.mod_two_eq_zero_or_one b with h2 | h2 <;>
    simp only [ha, hb, h1, h2] <;> norm_num <;>
    simp [Nat.xor_assoc, Nat.xor_comm, xor_left_comm, xor_cancel_left,
      Nat.xor_self, Nat.xor_zero, Nat.zero_xor]

theorem crcG_lt (a : Nat) (h : a < 2 ^ 32) : crcG a < 2 ^ 32 := by
  unfold crcG
  apply Nat.xor_lt_two_pow
  · have : a >>> 1 = a / 2 := Nat.shiftRight_one a
    omega
  · split <;> norm_num [CRC_POLY]

theorem crcG_eq_zero (a : Nat) (hlt : a < 2 ^ 32) (h : crcG a = 0) : a = 0 := by
  unfold crcG at h
  have ha : a &&& 1 = a % 2 := Nat.and_one_is_mod a
  have hs : a >>> 1 = a / 2 := Nat.shiftRight_one a
  rcases Nat.mod_two_eq_zero_or_one a with h1 | h1
  · rw [ha, h1] at h
    norm_num at h
    rw [hs] at h
    omega
  · rw [ha, h1] at h
    norm_num at h
    rw [hs] at h
    norm_num [CRC_POLY] at h
    omega

theorem crcG_iter_linear (k a b : Nat) :
    crcG^[k] (a ^^^ b) = crcG^[k] a ^^^ crcG^[k] b := by
  induction k generalizing a b with
  | zero => simp
  | succ n ih =>
    rw [Function.iterate_succ_apply, Function.iterate_succ_apply,
      Function.iterate_succ_apply, crcG_linear, ih]

theorem crcG_iter_lt (k a : Nat) (h : a < 2 ^ 32) : crcG^[k] a < 2 ^ 32 := by
  induction k with
  | zero => simpa
  | succ n ih => rw [Function.iterate_succ_apply']; exact crcG_lt _ ih

theorem crcG_iter_ne_zero (k a : Nat) (hlt : a < 2 ^ 32) (h : a ≠ 0) :
    crcG^[k] a ≠ 0 := by
  induction k with
  | zero => simpa
  | succ n ih =>
    rw [Function.iterate_succ_apply']
    intro hz
    exact ih (crcG_eq_zero _ (crcG_iter_lt n a hlt) hz)

theorem crcByteStep_xor (s s' b b' : Nat) :
    crcByteStep s b ^^^ crcByteStep s' b' = crcG^[8] ((s ^^^ b) ^^^ (s' ^^^ b')) := by
  unfold crcByteStep
  exact (crcG_iter_linear 8 _ _).symm

theorem crc_foldl_xor (L : List Nat) (s s' : Nat) :
    L.foldl crcByteStep s ^^^ L.foldl crcByteStep s' =
      crcG^[8 * L.length] (s ^^^ s') := by
  induction L generalizing s s' with
  | nil => simp
  | cons b T ih =>
    rw [List.foldl_cons, List.foldl_cons, ih]
    have harg : crcByteStep s b ^^^ crcByteStep s' b = crcG^[8] (s ^^^ s') := by
      rw [crcByteStep_xor]
      congr 1
      simp [Nat.xor_assoc, Nat.xor_comm, xor_left_comm, xor_cancel_left,
        Nat.xor_self, Nat.xor_zero, Nat.zero_xor]
    rw [harg, ← Function.iterate_add_apply]
    have hlen : 8 * T.length + 8 = 8 * (b :: T).length := by
      simp [List.length_cons]; ring
    rw [hlen]

theorem xor_ne_of_ne (a b c : Nat) (h : a ≠ b) : a ^^^ c ≠ b ^^^ c := by
  intro hc
  apply h
  have := congrArg (· ^^^ c) hc
  simpa [Nat.xor_assoc] using this

theorem crc32_bytes_flip_ne (p : List Nat) (i j : Nat) (hi : i < p.length)
    (hj : j < 8) : crc32_bytes (flipBitAt p i j) ≠ crc32_bytes p := by
  unfold crc32_bytes
  apply xor_ne_of_ne
  set b := p.getD i 0 with hb
  have hset : flipBitAt p i j = p.take i ++ (b ^^^ (1 <<< j)) :: p.drop (i + 1) := by
    unfold flipBitAt
    rw [List.set_eq_take_append_cons_drop, if_pos hi]
  have hsplit : p = p.take i ++ b :: p.drop (i + 1) := by
    conv_lhs => rw [← List.take_append_drop i p]
    congr 1
    rw [hb, List.getD_eq_getElem _ _ hi]
    exact List.drop_eq_getElem_cons hi
  rw [hset]
  conv_rhs => rw [hsplit]
  rw [List.foldl_append, List.foldl_append, List.foldl_cons, List.foldl_cons]
  intro heq
  have hz := Nat.xor_eq_zero.mpr heq
  rw [crc_foldl_xor] at hz
  set s := (p.take i).foldl crcByteStep 0xFFFFFFFF
  rw [crcByteStep_xor] at hz
  rw [← Function.iterate_add_apply] at hz
  have harg : (s ^^^ (b ^^^ (1 <<< j))) ^^^ (s ^^^ b) = 1 <<< j := by
    simp [Nat.xor_assoc, Nat.xor_comm, xor_left_comm, xor_cancel_left,
      Nat.xor_self, Nat.xor_zero, Nat.zero_xor]
  rw [harg] at hz
  have hlt : (1 <<< j) < 2 ^ 32 := by
    rw [shiftLeft_one_eq]
    calc 2 ^ j < 2 ^ 8 := Nat.pow_lt_pow_right (by norm_num) hj
    _ < 2 ^ 32 := by norm_num
  have hne : (1 <<< j) ≠ 0 := by
    rw [shiftLeft_one_eq]
    positivity
  exact crcG_iter_ne_zero _ _ hlt hne hz

/-- crc32 state stays below 2^32 on byte input. -/
theorem crc_foldl_lt (L : List Nat) (s : Nat) (hs : s < 2 ^ 32)
    (hL : ∀ b ∈ L, b < 256) : L.foldl crcByteStep s < 2 ^ 32 := by
  induction L generalizing s with
  | nil => simpa
  | cons b T ih =>
    rw [List.foldl_cons]
    apply ih
    · unfold crcByteStep
      apply crcG_iter_lt
      apply Nat.xor_lt_two_pow hs
      calc b < 256 := hL b (List.mem_cons_self ..)
      _ ≤ 2 ^ 32 := by norm_num
    · exact fun x hx => hL x (List.mem_cons_of_mem _ hx)

theorem crc32_bytes_lt (L : List Nat) (hL : ∀ b ∈ L, b < 256) :
    crc32_bytes L < 2 ^ 32 := by
  unfold crc32_bytes
  exact Nat.xor_lt_two_pow (crc_foldl_lt L _ (by norm_num) hL) (by norm_num)

/-! ## Frame-parsing lemmas -/

theorem getD_append_left (l r : List Nat) (n : Nat) (h : n < l.length) :
    (l ++ r).getD n 0 = l.getD n 0 :=
  List.getD_append _ _ _ _ h

theorem readLe32_append_left (l r : List Nat) (i : Nat) (h : i + 3 < l.length) :
    readLe32 (l ++ r) i = readLe32 l i := by
  unfold readLe32
  rw [getD_append_left _ _ _ (by omega), getD_append_left _ _ _ (by omega),
    getD_append_left _ _ _ (by omega), getD_append_left _ _ _ (by omega)]

/-- parseAligned on a buffer beginning with a well-formed CRC-less header. -/
theorem parseAligned_frame_nocrc (cfg : DecoderConfig) (H payload rest : List Nat)
    (dropped : Nat)
    (hHlen : H.length = 16)
    (hver : H.getD 4 0 = VERSION)
    (hfl : H.getD 6 0 &&& FLAG_CRC32 = 0)
    (hplen : readLe32 H 12 = payload.length)
    (hmax : payload.length ≤ cfg.max_payload_len) :
    parseAligned cfg (H ++ (payload ++ rest)) dropped =
      .done rest (.ok (some ⟨⟨H.getD 5 0, H.getD 6 0, H.getD 7 0, readLe32 H 8,
        payload.length, none⟩, payload⟩)) := by
  have hBlen : (H ++ (payload ++ rest)).length = 16 + (payload.length + rest.length) := by
    simp [hHlen]
  have hB4 : (H ++ (payload ++ rest)).getD 4 0 = VERSION := by
    rw [getD_append_left _ _ _ (by omega)]; exact hver
  have hB5 : (H ++ (payload ++ rest)).getD 5 0 = H.getD 5 0 :=
    getD_append_left _ _ _ (by omega)
  have hB6 : (H ++ (payload ++ rest)).getD 6 0 = H.getD 6 0 :=
    getD_append_left _ _ _ (by omega)
  have hB7 : (H ++ (payload ++ rest)).getD 7 0 = H.getD 7 0 :=
    getD_append_left _ _ _ (by omega)
  have hB8 : readLe32 (H ++ (payload ++ rest)) 8 = readLe32 H 8 :=
    readLe32_append_left _ _ _ (by omega)
  have hB12 : readLe32 (H ++ (payload ++ rest)) 12 = payload.length := by
    rw [readLe32_append_left _ _ _ (by omega)]; exact hplen
  have htake : (H ++ (payload ++ rest)).take (HEADER_LEN_BASE + payload.length) =
      H ++ payload := by
    simp only [HEADER_LEN_BASE]
    rw [← hHlen, List.take_append, List.take_left]
  have hdrop : (H ++ (payload ++ rest)).drop (HEADER_LEN_BASE + payload.length) =
      rest := by
    simp only [HEADER_LEN_BASE]
    rw [← hHlen, List.drop_append, List.drop_left]
  have hpl : (H ++ payload).drop HEADER_LEN_BASE = payload := by
    simp only [HEADER_LEN_BASE]
    rw [← hHlen, List.drop_left]
  have hlen1 : ¬ ((H ++ (payload ++ rest)).length < HEADER_LEN_BASE) := by
    rw [hBlen]; simp only [HEADER_LEN_BASE]; omega
  have hverne : ¬ (VERSION ≠ VERSION) := fun h => h rfl
  have hcrcfalse : ¬ (H.getD 6 0 &&& FLAG_CRC32 ≠ 0) := fun h => h hfl
  have hmaxle : ¬ (payload.length > cfg.max_payload_len) := by omega
  have hlen3 : ¬ ((H ++ (payload ++ rest)).length <
      HEADER_LEN_BASE + payload.length) := by
    rw [hBlen]; simp only [HEADER_LEN_BASE]; omega
  simp only [parseAligned, hB4, hB5, hB6, hB7, hB8, hB12, if_neg hlen1,
    if_neg hverne, if_neg hcrcfalse, if_neg hmaxle, if_neg hlen3, htake, hdrop, hpl]

/-- parseAligned on a buffer beginning with a well-formed CRC-carrying header
whose embedded CRC matches the payload. -/
theorem parseAligned_frame_crc (cfg : DecoderConfig) (H payload rest : List Nat)
    (dropped : Nat)
    (hHlen : H.length = 20)
    (hver : H.getD 4 0 = VERSION)
    (hfl : H.getD 6 0 &&& FLAG_CRC32 ≠ 0)
    (hplen : readLe32 H 12 = payload.length)
    (hcrc : readLe32 H 16 = crc32_bytes payload)
    (hmax : payload.length ≤ cfg.max_payload_len) :
    parseAligned cfg (H ++ (payload ++ rest)) dropped =
      .done rest (.ok (some ⟨⟨H.getD 5 0, H.getD 6 0, H.getD 7 0, readLe32 H 8,
        payload.length, some (crc32_bytes payload)⟩, payload⟩)) := by
  have hBlen : (H ++ (payload ++ rest)).length = 20 + (payload.length + rest.length) := by
    simp [hHlen]
  have hB4 : (H ++ (payload ++ rest)).getD 4 0 = VERSION := by
    rw [getD_append_left _ _ _ (by omega)]; exact hver
  have hB5 : (H ++ (payload ++ rest)).getD 5 0 = H.getD 5 0 :=
    getD_append_left _ _ _ (by omega)
  have hB6 : (H ++ (payload ++ rest)).getD 6 0 = H.getD 6 0 :=
    getD_append_left _ _ _ (by omega)
  have hB7 : (H ++ (payload ++ rest)).getD 7 0 = H.getD 7 0 :=
    getD_append_left _ _ _ (by omega)
  have hB8 : readLe32 (H ++ (payload ++ rest)) 8 = readLe32 H 8 :=
    readLe32_append_left _ _ _ (by omega)
  have hB12 : readLe32 (H ++ (payload ++ rest)) 12 = payload.length := by
    rw [readLe32_append_left _ _ _ (by omega)]; exact hplen
  have htake : (H ++ (payload ++ rest)).take (HEADER_LEN_WITH_CRC + payload.length) =
      H ++ payload := by
    simp only [HEADER_LEN_WITH_CRC]
    rw [← hHlen, List.take_append, List.take_left]
  have hdrop : (H ++ (payload ++ rest)).drop (HEADER_LEN_WITH_CRC + payload.length) =
      rest := by
    simp only [HEADER_LEN_WITH_CRC]
    rw [← hHlen, List.drop_append, List.drop_left]
  have hpl : (H ++ payload).drop HEADER_LEN_WITH_CRC = payload := by
    simp only [HEADER_LEN_WITH_CRC]
    rw [← hHlen, List.drop_left]
  have hcrcB : readLe32 (H ++ payload) 16 = crc32_bytes payload := by
    rw [readLe32_append_left _ _ _ (by omega)]; exact hcrc
  have hlen1 : ¬ ((H ++ (payload ++ rest)).length < HEADER_LEN_BASE) := by
    rw [hBlen]; simp only [HEADER_LEN_BASE]; omega
  have hverne : ¬ (VERSION ≠ VERSION) := fun h => h rfl
  have hmaxle : ¬ (payload.length > cfg.max_payload_len) := by omega
  have hlen2 : ¬ ((H ++ (payload ++ rest)).length < HEADER_LEN_WITH_CRC) := by
    rw [hBlen]; simp only [HEADER_LEN_WITH_CRC]; omega
  have hlen3 : ¬ ((H ++ (payload ++ rest)).length <
      HEADER_LEN_WITH_CRC + payload.length) := by
    rw [hBlen]; simp only [HEADER_LEN_WITH_CRC]; omega
  have hcrcne : ¬ (crc32_bytes payload ≠ crc32_bytes payload) := fun h => h rfl
  simp only [parseAligned, hB4, hB5, hB6, hB7, hB8, hB12, if_neg hlen1,
    if_neg hverne, if_pos hfl, if_neg hmaxle, if_neg hlen2, if_neg hlen3,
    htake, hdrop, hpl, hcrcB, if_neg hcrcne]

/-! ## Encoded-frame structure lemmas -/

theorem encode_frame_eq (p : EncodeFrameParams) :
    encode_frame p = encHeader p ++ p.payload := by
  simp [encode_frame, encHeader]

theorem encHeader_spec_nocrc (p : EncodeFrameParams)
    (hfl : p.flags &&& FLAG_CRC32 = 0) (hseq : p.seq < 2 ^ 32)
    (hplen : p.payload.length < 2 ^ 32) :
    (encHeader p).length = 16 ∧ (encHeader p).take 4 = MAGIC ∧
      (encHeader p).getD 4 0 = VERSION ∧
      (encHeader p).getD 5 0 = p.msg_type ∧
      (encHeader p).getD 6 0 = p.flags ∧
      (encHeader p).getD 7 0 = p.channel ∧
      readLe32 (encHeader p) 8 = p.seq ∧
      readLe32 (encHeader p) 12 = p.payload.length := by
  have he : encHeader p = [72, 77, 73, 80, VERSION, p.msg_type, p.flags,
      p.channel, p.seq % 256, p.seq / 256 % 256, p.seq / 65536 % 256,
      p.seq / 16777216 % 256, p.payload.length % 256,
      p.payload.length / 256 % 256, p.payload.length / 65536 % 256,
      p.payload.length / 16777216 % 256] := by
    simp [encHeader, MAGIC, le32, hfl]
    omega
  rw [he]
  refine ⟨rfl, rfl, rfl, rfl, rfl, rfl, ?_, ?_⟩
  · have h8 : readLe32 [72, 77, 73, 80, VERSION, p.msg_type, p.flags,
        p.channel, p.seq % 256, p.seq / 256 % 256, p.seq / 65536 % 256,
        p.seq / 16777216 % 256, p.payload.length % 256,
        p.payload.length / 256 % 256, p.payload.length / 65536 % 256,
        p.payload.length / 16777216 % 256] 8 =
        p.seq % 256 + 256 * (p.seq / 256 % 256) + 65536 * (p.seq / 65536 % 256) +
          16777216 * (p.seq / 16777216 % 256) := rfl
    rw [h8]
    exact le32_recompose _ hseq
  · have h12 : readLe32 [72, 77, 73, 80, VERSION, p.msg_type, p.flags,
        p.channel, p.seq % 256, p.seq / 256 % 256, p.seq / 65536 % 256,
        p.seq / 16777216 % 256, p.payload.length % 256,
        p.payload.length / 256 % 256, p.payload.length / 65536 % 256,
        p.payload.length / 16777216 % 256] 12 =
        p.payload.length % 256 + 256 * (p.payload.length / 256 % 256) +
          65536 * (p.payload.length / 65536 % 256) +
          16777216 * (p.payload.length / 16777216 % 256) := rfl
    rw [h12]
    exact le32_recompose _ hplen

theorem encHeader_spec_crc (p : EncodeFrameParams)
    (hfl : p.flags &&& FLAG_CRC32 ≠ 0) (hseq : p.seq < 2 ^ 32)
    (hplen : p.payload.length < 2 ^ 32)
    (hbytes : ∀ b ∈ p.payload, b < 256) :
    (encHeader p).length = 20 ∧ (encHeader p).take 4 = MAGIC ∧
      (encHeader p).getD 4 0 = VERSION ∧
      (encHeader p).getD 5 0 = p.msg_type ∧
      (encHeader p).getD 6 0 = p.flags ∧
      (encHeader p).getD 7 0 = p.channel ∧
      readLe32 (encHeader p) 8 = p.seq ∧
      readLe32 (encHeader p) 12 = p.payload.length ∧
      readLe32 (encHeader p) 16 = crc32_bytes p.payload := by
  have hcrc32 : crc32_bytes p.payload < 2 ^ 32 := crc32_bytes_lt _ hbytes
  have he : encHeader p = [72, 77, 73, 80, VERSION, p.msg_type, p.flags,
      p.channel, p.seq % 256, p.seq / 256 % 256, p.seq / 65536 % 256,
      p.seq / 16777216 % 256, p.payload.length % 256,
      p.payload.length / 256 % 256, p.payload.length / 65536 % 256,
      p.payload.length / 16777216 % 256, crc32_bytes p.payload % 256,
      crc32_bytes p.payload / 256 % 256, crc32_bytes p.payload / 65536 % 256,
      crc32_bytes p.payload / 16777216 % 256] := by
    simp [encHeader, MAGIC, le32, hfl]
    omega
  rw [he]
  refine ⟨rfl, rfl, rfl, rfl, rfl, rfl, ?_, ?_, ?_⟩
  · exact le32_recompose _ hseq
  · exact le32_recompose _ hplen
  · exact le32_recompose _ hcrc32

theorem encode_frame_length (p : EncodeFrameParams) :
    (encode_frame p).length =
      (if p.flags &&& FLAG_CRC32 ≠ 0 then HEADER_LEN_WITH_CRC else HEADER_LEN_BASE) +
        p.payload.length := by
  by_cases hfl : p.flags &&& FLAG_CRC32 = 0
  · simp [encode_frame, MAGIC, le32, hfl, HEADER_LEN_BASE]
    omega
  · simp [encode_frame, MAGIC, le32, hfl, HEADER_LEN_WITH_CRC]
    omega

theorem encode_frame_length_ge (p : EncodeFrameParams) :
    16 ≤ (encode_frame p).length := by
  rw [encode_frame_length]
  split <;> simp [HEADER_LEN_BASE, HEADER_LEN_WITH_CRC] <;> omega

/-- parseAligned fully decodes an encoded valid frame at the buffer head. -/
theorem parseAligned_encode (cfg : DecoderConfig) (p : EncodeFrameParams)
    (rest : List Nat) (dropped : Nat) (h : ValidParams cfg p) :
    parseAligned cfg (encode_frame p ++ rest) dropped =
      .done rest (.ok (some (expectedFrame p))) := by
  obtain ⟨hmt, hfl256, hch, hseq, hbytes, hmax, hplen, hbuf⟩ := h
  rw [encode_frame_eq, List.append_assoc]
  by_cases hfl : p.flags &&& FLAG_CRC32 = 0
  · obtain ⟨e1, e2, e3, e4, e5, e6, e7, e8⟩ := encHeader_spec_nocrc p hfl hseq hplen
    rw [parseAligned_frame_nocrc cfg _ _ rest dropped e1 e3 (by rw [e5]; exact hfl)
      e8 hmax]
    simp [expectedFrame, e7, hfl]
    exact ⟨e4, e5, e6⟩
  · obtain ⟨e1, e2, e3, e4, e5, e6, e7, e8, e9⟩ :=
      encHeader_spec_crc p hfl hseq hplen hbytes
    rw [parseAligned_frame_crc cfg _ _ rest dropped e1 e3 (by rw [e5]; exact hfl)
      e8 e9 hmax]
    simp [expectedFrame, e7, hfl]
    exact ⟨e4, e5, e6⟩

/-- nextFrameLoop fully decodes an encoded valid frame at the buffer head. -/
theorem nextFrameLoop_encode (cfg : DecoderConfig) (p : EncodeFrameParams)
    (rest : List Nat) (dropped fuel : Nat) (h : ValidParams cfg p) :
    nextFrameLoop cfg (fuel + 1) (encode_frame p ++ rest) dropped =
      (rest, .ok (some (expectedFrame p))) := by
  have hlen : ¬ ((encode_frame p ++ rest).length < MAGIC.length) := by
    have := encode_frame_length_ge p
    simp only [MAGIC, List.length_append, List.length_cons, List.length_nil]
    omega
  have htake4 : (encode_frame p ++ rest).take MAGIC.length = MAGIC := by
    have h16 := encode_frame_length_ge p
    rw [List.take_append_of_le_length (by simp [MAGIC]; omega)]
    rw [encode_frame_eq]
    by_cases hfl : p.flags &&& FLAG_CRC32 = 0
    · obtain ⟨e1, e2, _⟩ := encHeader_spec_nocrc p hfl h.2.2.2.1 h.2.2.2.2.2.2.1
      rw [List.take_append_of_le_length (by simp [MAGIC]; omega)]
      simpa [MAGIC] using e2
    · obtain ⟨e1, e2, _⟩ := encHeader_spec_crc p hfl h.2.2.2.1 h.2.2.2.2.2.2.1
        h.2.2.2.2.1
      rw [List.take_append_of_le_length (by simp [MAGIC]; omega)]
      simpa [MAGIC] using e2
  rw [nextFrameLoop, if_neg hlen, if_pos htake4, parseAligned_encode cfg p rest dropped h]

/-- parseAligned on a CRC-flagged frame whose embedded CRC does not match the
payload: the whole frame is consumed and a CRC-mismatch error reported. -/
theorem parseAligned_frame_crc_mismatch (cfg : DecoderConfig)
    (H payload rest : List Nat) (dropped : Nat)
    (hHlen : H.length = 20)
    (hver : H.getD 4 0 = VERSION)
    (hfl : H.getD 6 0 &&& FLAG_CRC32 ≠ 0)
    (hplen : readLe32 H 12 = payload.length)
    (hmax : payload.length ≤ cfg.max_payload_len)
    (hne : crc32_bytes payload ≠ readLe32 H 16) :
    parseAligned cfg (H ++ (payload ++ rest)) dropped =
      .done rest (.error ⟨.crcMismatch (readLe32 H 16) (crc32_bytes payload),
        dropped⟩) := by
  have hBlen : (H ++ (payload ++ rest)).length = 20 + (payload.length + rest.length) := by
    simp [hHlen]
  have hB4 : (H ++ (payload ++ rest)).getD 4 0 = VERSION := by
    rw [getD_append_left _ _ _ (by omega)]; exact hver
  have hB6 : (H ++ (payload ++ rest)).getD 6 0 = H.getD 6 0 :=
    getD_append_left _ _ _ (by omega)
  have hB12 : readLe32 (H ++ (payload ++ rest)) 12 = payload.length := by
    rw [readLe32_append_left _ _ _ (by omega)]; exact hplen
  have htake : (H ++ (payload ++ rest)).take (HEADER_LEN_WITH_CRC + payload.length) =
      H ++ payload := by
    simp only [HEADER_LEN_WITH_CRC]
    rw [← hHlen, List.take_append, List.take_left]
  have hdrop : (H ++ (payload ++ rest)).drop (HEADER_LEN_WITH_CRC + payload.length) =
      rest := by
    simp only [HEADER_LEN_WITH_CRC]
    rw [← hHlen, List.drop_append, List.drop_left]
  have hpl : (H ++ payload).drop HEADER_LEN_WITH_CRC = payload := by
    simp only [HEADER_LEN_WITH_CRC]
    rw [← hHlen, List.drop_left]
  have hcrcB : readLe32 (H ++ payload) 16 = readLe32 H 16 :=
    readLe32_append_left _ _ _ (by omega)
  have hlen1 : ¬ ((H ++ (payload ++ rest)).length < HEADER_LEN_BASE) := by
    rw [hBlen]; simp only [HEADER_LEN_BASE]; omega
  have hverne : ¬ (VERSION ≠ VERSION) := fun h => h rfl
  have hmaxle : ¬ (payload.length > cfg.max_payload_len) := by omega
  have hlen2 : ¬ ((H ++ (payload ++ rest)).length < HEADER_LEN_WITH_CRC) := by
    rw [hBlen]; simp only [HEADER_LEN_WITH_CRC]; omega
  have hlen3 : ¬ ((H ++ (payload ++ rest)).length <
      HEADER_LEN_WITH_CRC + payload.length) := by
    rw [hBlen]; simp only [HEADER_LEN_WITH_CRC]; omega
  simp only [parseAligned, hB4, hB6, hB12, if_neg hlen1,
    if_neg hverne, if_pos hfl, if_neg hmaxle, if_neg hlen2, if_neg hlen3,
    htake, hdrop, hpl, hcrcB, if_pos hne]

theorem getD_append_right (l r : List Nat) (i : Nat) :
    (l ++ r).getD (l.length + i) 0 = r.getD i 0 := by
  simp [List.getD_eq_getElem?_getD, List.getElem?_append_right]

theorem set_append_right' (l r : List Nat) (i v : Nat) :
    (l ++ r).set (l.length + i) v = l ++ r.set i v := by
  rw [List.set_append_right _ _ (by omega)]
  simp

theorem flipBitAt_length (l : List Nat) (i j : Nat) :
    (flipBitAt l i j).length = l.length := by
  simp [flipBitAt]

theorem push_ok (d : FrameDecoder) (bytes : List Nat)
    (h : d.buf.length + bytes.length ≤ d.cfg.max_buffer_len) :
    d.push bytes = ({ d with buf := d.buf ++ bytes }, .ok ()) := by
  unfold FrameDecoder.push
  by_cases hb : bytes = []
  · subst hb; simp
  · rw [if_neg hb, if_neg (by omega)]

theorem next_frame_nil (cfg : DecoderConfig) :
    FrameDecoder.next_frame ⟨cfg, []⟩ = (⟨cfg, []⟩, .ok none) := rfl

/-- next_frame on a buffer that is an encoded valid frame followed by rest. -/
theorem next_frame_encode (cfg : DecoderConfig) (p : EncodeFrameParams)
    (rest : List Nat) (h : ValidParams cfg p) :
    FrameDecoder.next_frame ⟨cfg, encode_frame p ++ rest⟩ =
      (⟨cfg, rest⟩, .ok (some (expectedFrame p))) := by
  unfold FrameDecoder.next_frame
  rw [show (encode_frame p ++ rest).length + 1 =
    (encode_frame p ++ rest).length + 1 from rfl]
  rw [nextFrameLoop_encode cfg p rest 0 ((encode_frame p ++ rest).length) h]

/-- Flipping a payload bit of an encoded CRC frame only touches the payload
part: the header (including the embedded CRC of the original payload) is
unchanged. -/
theorem flip_encode_eq (p : EncodeFrameParams) (i j : Nat)
    (hfl : p.flags &&& FLAG_CRC32 ≠ 0) (hseq : p.seq < 2 ^ 32)
    (hplen : p.payload.length < 2 ^ 32) (hbytes : ∀ b ∈ p.payload, b < 256) :
    flipBitAt (encode_frame p) (HEADER_LEN_WITH_CRC + i) j =
      encHeader p ++ flipBitAt p.payload i j := by
  obtain ⟨e1, -⟩ := encHeader_spec_crc p hfl hseq hplen hbytes
  unfold flipBitAt
  rw [encode_frame_eq]
  rw [show HEADER_LEN_WITH_CRC + i = (encHeader p).length + i by
    rw [e1]; rfl]
  rw [getD_append_right, set_append_right']

/-- Claim C5: CRC enforcement.  Flipping any single bit of the payload
portion of a CRC-flagged encoded frame makes next_frame (on a fresh decoder
fed the corrupted bytes plus any suffix) return a CRC-mismatch error and no
Frame, with the whole frame's header_len + payload_len bytes already
consumed from the buffer (only the suffix remains). -/
theorem c5_crc_enforcement (cfg : DecoderConfig) (p : EncodeFrameParams)
    (rest : List Nat) (i j : Nat) (h : ValidParams cfg p)
    (hfl : p.flags &&& FLAG_CRC32 ≠ 0) (hi : i < p.payload.length) (hj : j < 8)
    (hbound : (encode_frame p).length + rest.length ≤ cfg.max_buffer_len) :
    ((FrameDecoder.new cfg).push
        (flipBitAt (encode_frame p) (HEADER_LEN_WITH_CRC + i) j ++ rest)).2 =
      .ok () ∧
    FrameDecoder.next_frame ((FrameDecoder.new cfg).push
        (flipBitAt (encode_frame p) (HEADER_LEN_WITH_CRC + i) j ++ rest)).1 =
      (⟨cfg, rest⟩, .error ⟨.crcMismatch (crc32_bytes p.payload)
        (crc32_bytes (flipBitAt p.payload i j)), 0⟩) ∧
    crc32_bytes (flipBitAt p.payload i j) ≠ crc32_bytes p.payload := by
  obtain ⟨hmt, hfl256, hch, hseq, hbytes, hmax, hplen, hbuf⟩ := h
  obtain ⟨e1, e2, e3, e4, e5, e6, e7, e8, e9⟩ :=
    encHeader_spec_crc p hfl hseq hplen hbytes
  have hflip := flip_encode_eq p i j hfl hseq hplen hbytes
  have hfliplen : (flipBitAt p.payload i j).length = p.payload.length :=
    flipBitAt_length ..
  have hclen : (flipBitAt (encode_frame p) (HEADER_LEN_WITH_CRC + i) j).length =
      (encode_frame p).length := flipBitAt_length ..
  have hne : crc32_bytes (flipBitAt p.payload i j) ≠ crc32_bytes p.payload :=
    crc32_bytes_flip_ne p.payload i j hi hj
  have hpush : (FrameDecoder.new cfg).push
      (flipBitAt (encode_frame p) (HEADER_LEN_WITH_CRC + i) j ++ rest) =
      (⟨cfg, flipBitAt (encode_frame p) (HEADER_LEN_WITH_CRC + i) j ++ rest⟩,
        .ok ()) := by
    rw [push_ok _ _ (by
      show ([] : List Nat).length + _ ≤ _
      rw [List.length_append, hclen]
      simpa using hbound)]
    simp [FrameDecoder.new]
  refine ⟨by rw [hpush], ?_, hne⟩
  rw [hpush]
  unfold FrameDecoder.next_frame
  have hB : flipBitAt (encode_frame p) (HEADER_LEN_WITH_CRC + i) j ++ rest =
      encHeader p ++ (flipBitAt p.payload i j ++ rest) := by
    rw [hflip, List.append_assoc]
  have hlenB : ¬ ((flipBitAt (encode_frame p) (HEADER_LEN_WITH_CRC + i) j ++
      rest).length < MAGIC.length) := by
    rw [hB]
    simp only [MAGIC, List.length_append, List.length_cons, List.length_nil, e1]
    omega
  have htake4 : (flipBitAt (encode_frame p) (HEADER_LEN_WITH_CRC + i) j ++
      rest).take MAGIC.length = MAGIC := by
    rw [hB, List.take_append_of_le_length (by simp [MAGIC]; omega)]
    simpa [MAGIC] using e2
  rw [nextFrameLoop, if_neg hlenB, if_pos htake4]
  conv_lhs =>
    rw [hB, parseAligned_frame_crc_mismatch cfg (encHeader p) _ rest 0 e1 e3
      (by rw [e5]; exact hfl) (by rw [e8, hfliplen]) (by rw [hfliplen]; exact hmax)
      (by rw [e9]; exact hne)]
  rw [e9]

theorem c5_crc_enforcement_witness :
    ((FrameDecoder.new .default).push
        (flipBitAt (encode_frame ⟨0x20, 1, 0, 1, [104, 101, 108, 108, 111]⟩)
          (HEADER_LEN_WITH_CRC + 4) 0 ++ [])).2 = .ok () ∧
    FrameDecoder.next_frame ((FrameDecoder.new .default).push
        (flipBitAt (encode_frame ⟨0x20, 1, 0, 1, [104, 101, 108, 108, 111]⟩)
          (HEADER_LEN_WITH_CRC + 4) 0 ++ [])).1 =
      (⟨.default, []⟩, .error ⟨.crcMismatch
        (crc32_bytes [104, 101, 108, 108, 111])
        (crc32_bytes (flipBitAt [104, 101, 108, 108, 111] 4 0)), 0⟩) ∧
    crc32_bytes (flipBitAt [104, 101, 108, 108, 111] 4 0) ≠
      crc32_bytes [104, 101, 108, 108, 111] :=
  c5_crc_enforcement .default ⟨0x20, 1, 0, 1, [104, 101, 108, 108, 111]⟩ [] 4 0
    (by decide) (by decide) (by decide) (by decide) (by decide)

/-- Claim C1: frame round-trip.  For every valid frame parameter record
(u8/u32 fields in range, payload of bytes, payload length at most
max_payload_len and expressible as u32, encoded frame fitting in
max_buffer_len), pushing encode_frame's bytes into a fresh FrameDecoder
succeeds, next_frame returns exactly the Frame carrying the encoded
msg_type, flags, channel, seq, payload_len, payload (bit-for-bit) and the
payload CRC32 exactly when the CRC flag bit is set, and a further call
returns no frame. -/
theorem c1_frame_roundtrip (cfg : DecoderConfig) (p : EncodeFrameParams)
    (h : ValidParams cfg p) :
    ((FrameDecoder.new cfg).push (encode_frame p)).2 = .ok () ∧
    FrameDecoder.next_frame ((FrameDecoder.new cfg).push (encode_frame p)).1 =
      (FrameDecoder.new cfg, .ok (some (expectedFrame p))) ∧
    FrameDecoder.next_frame (FrameDecoder.new cfg) = (FrameDecoder.new cfg, .ok none) := by
  have hbuf : (encode_frame p).length ≤ cfg.max_buffer_len := h.2.2.2.2.2.2.2
  have hp : (FrameDecoder.new cfg).push (encode_frame p) =
      (⟨cfg, encode_frame p⟩, .ok ()) := by
    rw [push_ok _ _ (by simpa [FrameDecoder.new] using hbuf)]
    simp [FrameDecoder.new]
  refine ⟨by rw [hp], ?_, next_frame_nil cfg⟩
  rw [hp]
  have := next_frame_encode cfg p [] h
  rw [List.append_nil] at this
  rw [this]
  rfl

theorem c1_frame_roundtrip_witness :
    ValidParams .default ⟨0x20, 1, 2, 42, [104, 101, 108, 108, 111]⟩ ∧
    (((FrameDecoder.new .default).push
        (encode_frame ⟨0x20, 1, 2, 42, [104, 101, 108, 108, 111]⟩)).2 = .ok () ∧
      FrameDecoder.next_frame ((FrameDecoder.new .default).push
          (encode_frame ⟨0x20, 1, 2, 42, [104, 101, 108, 108, 111]⟩)).1 =
        (FrameDecoder.new .default,
          .ok (some (expectedFrame ⟨0x20, 1, 2, 42, [104, 101, 108, 108, 111]⟩))) ∧
      FrameDecoder.next_frame (FrameDecoder.new .default) =
        (FrameDecoder.new .default, .ok none)) :=
  ⟨by decide, c1_frame_roundtrip .default _ (by decide)⟩

/-- Claim C6: buffer overflow on push.  For a non-empty input, push fails
exactly when the buffered length plus the input length exceeds
max_buffer_len; on failure the buffer is cleared and the error's
dropped_bytes is the old buffer length, and the decoder stays usable (a
subsequently pushed valid frame parses correctly). -/
theorem c6_push_overflow (d : FrameDecoder) (bytes : List Nat) (hne : bytes ≠ []) :
    ((∃ e, (d.push bytes).2 = .error e) ↔
      d.cfg.max_buffer_len < d.buf.length + bytes.length) ∧
    (∀ e, (d.push bytes).2 = .error e →
      (d.push bytes).1 = { d with buf := [] } ∧
        e.dropped_bytes = d.buf.length ∧
        e.kind = .bufferOverflow d.cfg.max_buffer_len) ∧
    (∀ e (p : EncodeFrameParams), (d.push bytes).2 = .error e →
      ValidParams d.cfg p →
      ((d.push bytes).1.push (encode_frame p)).2 = .ok () ∧
        FrameDecoder.next_frame ((d.push bytes).1.push (encode_frame p)).1 =
          (⟨d.cfg, []⟩, .ok (some (expectedFrame p)))) := by
  by_cases hov : d.cfg.max_buffer_len < d.buf.length + bytes.length
  · have hpush : d.push bytes =
        ({ d with buf := [] },
          .error ⟨.bufferOverflow d.cfg.max_buffer_len, d.buf.length⟩) := by
      unfold FrameDecoder.push
      rw [if_neg hne, if_pos (by omega)]
    refine ⟨⟨fun _ => hov, fun _ => ⟨_, by rw [hpush]⟩⟩, ?_, ?_⟩
    · intro e he
      rw [hpush] at he
      obtain rfl : (⟨.bufferOverflow d.cfg.max_buffer_len, d.buf.length⟩ :
          DecodeError) = e := by
        simpa using he
      exact ⟨by rw [hpush], rfl, rfl⟩
    · intro e p _ hvp
      rw [hpush]
      have hbuf : (encode_frame p).length ≤ d.cfg.max_buffer_len :=
        hvp.2.2.2.2.2.2.2
      have h2 : ({ d with buf := [] } : FrameDecoder).push (encode_frame p) =
          (⟨d.cfg, encode_frame p⟩, .ok ()) := by
        rw [push_ok _ _ (by simpa using hbuf)]
        simp
      rw [h2]
      have := next_frame_encode d.cfg p [] hvp
      rw [List.append_nil] at this
      exact ⟨rfl, this⟩
  · have hpush : d.push bytes = ({ d with buf := d.buf ++ bytes }, .ok ()) :=
      push_ok d bytes (by omega)
    refine ⟨⟨?_, fun hc => absurd hc hov⟩, ?_, ?_⟩
    · rintro ⟨e, he⟩
      rw [hpush] at he
      exact absurd he (by simp)
    · intro e he
      rw [hpush] at he
      exact absurd he (by simp)
    · intro e p he _
      rw [hpush] at he
      exact absurd he (by simp)

theorem c6_push_overflow_witness :
    (∃ e, ((⟨⟨1024, 32⟩, List.replicate 20 0⟩ : FrameDecoder).push
      (List.replicate 20 0)).2 = .error e) :=
  (c6_push_overflow ⟨⟨1024, 32⟩, List.replicate 20 0⟩ (List.replicate 20 0)
    (by decide)).1.mpr (by decide)

/-! ## find_magic lemmas -/

theorem findMagicAux_ge (b : List Nat) : ∀ i n, findMagicAux i b = some n → i ≤ n := by
  induction b with
  | nil => intro i n h; simp [findMagicAux] at h
  | cons x t ih =>
    intro i n h
    unfold findMagicAux at h
    split at h
    · cases h; exact le_rfl
    · have := ih (i + 1) n h; omega

theorem find_magic_zero (buf : List Nat) (h : find_magic buf = some 0) :
    buf.take 4 = MAGIC := by
  unfold find_magic at h
  cases buf with
  | nil => simp [findMagicAux] at h
  | cons x t =>
    unfold findMagicAux at h
    split at h
    · cases h; assumption
    · exact absurd (findMagicAux_ge t 1 0 h) (by omega)

theorem take4_magic_shape (enc : List Nat) (h : enc.take 4 = MAGIC) :
    ∃ t, enc = 72 :: 77 :: 73 :: 80 :: t := by
  rcases enc with _ | ⟨a, _ | ⟨b, _ | ⟨c, _ | ⟨d, t⟩⟩⟩⟩ <;>
    simp [MAGIC] at h
  obtain ⟨rfl, rfl, rfl, rfl⟩ := h
  exact ⟨t, rfl⟩

/-- A short (1-3 byte) block followed by a MAGIC-starting list cannot itself
start with MAGIC: MAGIC has no nontrivial self-overlap. -/
theorem straddle_ne (G enc : List Nat) (hlen : G.length < 4) (hne : G ≠ [])
    (henc : enc.take 4 = MAGIC) : (G ++ enc).take 4 ≠ MAGIC := by
  obtain ⟨t, rfl⟩ := take4_magic_shape enc henc
  rcases G with _ | ⟨a, _ | ⟨b, _ | ⟨c, _ | ⟨d, u⟩⟩⟩⟩ <;>
    simp [MAGIC] at hlen hne ⊢ <;> omega

theorem findMagicAux_append (G enc : List Nat)
    (hG : ∀ k, k < G.length → (G.drop k).take 4 ≠ MAGIC)
    (henc : enc.take 4 = MAGIC) :
    ∀ i, findMagicAux i (G ++ enc) = some (i + G.length) := by
  induction G with
  | nil =>
    intro i
    obtain ⟨t, rfl⟩ := take4_magic_shape enc henc
    simp [findMagicAux, MAGIC]
  | cons a T ih =>
    intro i
    have hne4 : ((a :: T) ++ enc).take 4 ≠ MAGIC := by
      by_cases hT : (a :: T).length < 4
      · exact straddle_ne (a :: T) enc hT (by simp) henc
      · rw [List.take_append_of_le_length (by omega)]
        exact hG 0 (by simp)
    rw [show (a :: T) ++ enc = a :: (T ++ enc) by simp]
    unfold findMagicAux
    rw [if_neg (by rw [show a :: (T ++ enc) = (a :: T) ++ enc by simp]; exact hne4)]
    rw [ih (fun k hk => by
      simpa using hG (k + 1) (by simp only [List.length_cons]; omega)) (i + 1)]
    simp [List.length_cons]
    omega

theorem find_magic_append (G enc : List Nat)
    (hG : ∀ k, k < G.length → (G.drop k).take 4 ≠ MAGIC)
    (henc : enc.take 4 = MAGIC) :
    find_magic (G ++ enc) = some G.length := by
  unfold find_magic
  rw [findMagicAux_append G enc hG henc 0]
  simp

/-! ## parseAligned outcome characterizations -/

theorem getD_take (l : List Nat) (n i : Nat) (h : i < n) :
    (l.take n).getD i 0 = l.getD i 0 := by
  simp [List.getD_eq_getElem?_getD, List.getElem?_take, h]

theorem readLe32_take (l : List Nat) (n i : Nat) (h : i + 3 < n) :
    readLe32 (l.take n) i = readLe32 l i := by
  unfold readLe32
  rw [getD_take _ _ _ (by omega), getD_take _ _ _ (by omega),
    getD_take _ _ _ (by omega), getD_take _ _ _ (by omega)]

/-- Exhaustive characterization of parseAligned outcomes. -/
theorem parseAligned_shape (cfg : DecoderConfig) (buf : List Nat) (dropped : Nat) :
    parseAligned cfg buf dropped = .done buf (.ok none) ∨
    (16 ≤ buf.length ∧
      parseAligned cfg buf dropped = .retry (buf.drop 1) (dropped + 1)) ∨
    (16 ≤ buf.length ∧ ∃ e : DecodeError,
      parseAligned cfg buf dropped = .done (buf.drop 1) (.error e)) ∨
    (16 ≤ buf.length ∧ ∃ e : DecodeError,
      parseAligned cfg buf dropped =
        .done (buf.drop (HEADER_LEN_WITH_CRC + readLe32 buf 12)) (.error e)) ∨
    (buf.getD 6 0 &&& FLAG_CRC32 = 0 ∧
      HEADER_LEN_BASE + readLe32 buf 12 ≤ buf.length ∧
      parseAligned cfg buf dropped =
        .done (buf.drop (HEADER_LEN_BASE + readLe32 buf 12))
          (.ok (some ⟨⟨buf.getD 5 0, buf.getD 6 0, buf.getD 7 0, readLe32 buf 8,
            readLe32 buf 12, none⟩,
            (buf.take (HEADER_LEN_BASE + readLe32 buf 12)).drop HEADER_LEN_BASE⟩))) ∨
    (buf.getD 6 0 &&& FLAG_CRC32 ≠ 0 ∧
      HEADER_LEN_WITH_CRC + readLe32 buf 12 ≤ buf.length ∧
      parseAligned cfg buf dropped =
        .done (buf.drop (HEADER_LEN_WITH_CRC + readLe32 buf 12))
          (.ok (some ⟨⟨buf.getD 5 0, buf.getD 6 0, buf.getD 7 0, readLe32 buf 8,
            readLe32 buf 12,
            some (readLe32 (buf.take (HEADER_LEN_WITH_CRC + readLe32 buf 12)) 16)⟩,
            (buf.take (HEADER_LEN_WITH_CRC + readLe32 buf 12)).drop
              HEADER_LEN_WITH_CRC⟩))) := by
  by_cases h1 : buf.length < HEADER_LEN_BASE
  · exact Or.inl (by simp only [parseAligned, if_pos h1])
  have h16 : 16 ≤ buf.length := by simp only [HEADER_LEN_BASE] at h1; omega
  by_cases h2 : buf.getD 4 0 ≠ VERSION
  · exact Or.inr (Or.inl ⟨h16, by simp only [parseAligned, if_neg h1, if_pos h2]⟩)
  by_cases hc : buf.getD 6 0 &&& FLAG_CRC32 ≠ 0
  · by_cases h3 : buf.length < HEADER_LEN_WITH_CRC
    · exact Or.inl (by
        simp only [parseAligned, if_neg h1, if_neg h2, if_pos hc, if_pos h3])
    by_cases h4 : readLe32 buf 12 > cfg.max_payload_len
    · refine Or.inr (Or.inr (Or.inl ⟨h16,
        ⟨⟨.payloadTooLarge (readLe32 buf 12) cfg.max_payload_len, dropped + 1⟩, ?_⟩⟩))
      simp only [parseAligned, if_neg h1, if_neg h2, if_pos hc, if_neg h3,
        if_pos h4]
    by_cases h5 : buf.length < HEADER_LEN_WITH_CRC + readLe32 buf 12
    · exact Or.inl (by
        simp only [parseAligned, if_neg h1, if_neg h2, if_pos hc, if_neg h3,
          if_neg h4, if_pos h5])
    by_cases hG : crc32_bytes ((buf.take (HEADER_LEN_WITH_CRC + readLe32 buf 12)).drop
        HEADER_LEN_WITH_CRC) ≠
        readLe32 (buf.take (HEADER_LEN_WITH_CRC + readLe32 buf 12)) 16
    · refine Or.inr (Or.inr (Or.inr (Or.inl ⟨h16,
        ⟨⟨.crcMismatch (readLe32 (buf.take (HEADER_LEN_WITH_CRC + readLe32 buf 12)) 16)
          (crc32_bytes ((buf.take (HEADER_LEN_WITH_CRC + readLe32 buf 12)).drop
            HEADER_LEN_WITH_CRC)), dropped⟩, ?_⟩⟩)))
      simp only [parseAligned, if_neg h1, if_neg h2, if_pos hc, if_neg h3,
        if_neg h4, if_neg h5, if_pos hG]
    · refine Or.inr (Or.inr (Or.inr (Or.inr (Or.inr ⟨hc, by omega, ?_⟩))))
      simp only [parseAligned, if_neg h1, if_neg h2, if_pos hc, if_neg h3,
        if_neg h4, if_neg h5, if_neg hG]
  · have h3 : ¬ (buf.length < HEADER_LEN_BASE) := h1
    by_cases h4 : readLe32 buf 12 > cfg.max_payload_len
    · refine Or.inr (Or.inr (Or.inl ⟨h16,
        ⟨⟨.payloadTooLarge (readLe32 buf 12) cfg.max_payload_len, dropped + 1⟩, ?_⟩⟩))
      simp only [parseAligned, if_neg h1, if_neg h2, if_neg hc, if_neg h3,
        if_pos h4]
    by_cases h5 : buf.length < HEADER_LEN_BASE + readLe32 buf 12
    · exact Or.inl (by
        simp only [parseAligned, if_neg h1, if_neg h2, if_neg hc, if_neg h3,
          if_neg h4, if_pos h5])
    · refine Or.inr (Or.inr (Or.inr (Or.inr (Or.inl
        ⟨by omega, by omega, ?_⟩))))
      simp only [parseAligned, if_neg h1, if_neg h2, if_neg hc, if_neg h3,
        if_neg h4, if_neg h5]

theorem parseAligned_retry_char (cfg : DecoderConfig) (buf : List Nat)
    (dropped : Nat) (buf' : List Nat) (dropped' : Nat)
    (h : parseAligned cfg buf dropped = .retry buf' dropped') :
    buf' = buf.drop 1 ∧ dropped' = dropped + 1 ∧ 16 ≤ buf.length := by
  rcases parseAligned_shape cfg buf dropped with
    he | ⟨h16, he⟩ | ⟨h16, e', he⟩ | ⟨h16, e', he⟩ | ⟨hc, hle, he⟩ | ⟨hc, hle, he⟩ <;>
    rw [he] at h
  · exact LoopStep.noConfusion h
  · obtain ⟨hb, hd⟩ := LoopStep.retry.inj h
    exact ⟨hb.symm, hd.symm, h16⟩
  · exact LoopStep.noConfusion h
  · exact LoopStep.noConfusion h
  · exact LoopStep.noConfusion h
  · exact LoopStep.noConfusion h

theorem parseAligned_error_char (cfg : DecoderConfig) (buf : List Nat)
    (dropped : Nat) (buf' : List Nat) (e : DecodeError)
    (h : parseAligned cfg buf dropped = .done buf' (.error e)) :
    buf'.length < buf.length := by
  rcases parseAligned_shape cfg buf dropped with
    he | ⟨h16, he⟩ | ⟨h16, e', he⟩ | ⟨h16, e', he⟩ | ⟨hc, hle, he⟩ | ⟨hc, hle, he⟩ <;>
    rw [he] at h
  · exact Except.noConfusion (LoopStep.done.inj h).2
  · exact LoopStep.noConfusion h
  · obtain ⟨hb, -⟩ := LoopStep.done.inj h
    subst hb
    simp only [List.length_drop]
    omega
  · obtain ⟨hb, -⟩ := LoopStep.done.inj h
    subst hb
    simp only [List.length_drop, HEADER_LEN_WITH_CRC]
    omega
  · exact Except.noConfusion (LoopStep.done.inj h).2
  · exact Except.noConfusion (LoopStep.done.inj h).2

theorem parseAligned_ok_some_char (cfg : DecoderConfig) (buf : List Nat)
    (dropped : Nat) (buf' : List Nat) (f : Frame)
    (h : parseAligned cfg buf dropped = .done buf' (.ok (some f))) :
    f.payload.length = f.header.payload_len ∧
    (f.header.payload_crc32 = none ↔ f.header.flags &&& FLAG_CRC32 = 0) ∧
    (∀ c, f.header.payload_crc32 = some c → c = readLe32 buf 16) := by
  rcases parseAligned_shape cfg buf dropped with
    he | ⟨h16, he⟩ | ⟨h16, e', he⟩ | ⟨h16, e', he⟩ | ⟨hc, hle, he⟩ | ⟨hc, hle, he⟩ <;>
    rw [he] at h
  · exact Option.noConfusion (Except.ok.inj (LoopStep.done.inj h).2)
  · exact LoopStep.noConfusion h
  · exact Except.noConfusion (LoopStep.done.inj h).2
  · exact Except.noConfusion (LoopStep.done.inj h).2
  · obtain ⟨-, hr⟩ := LoopStep.done.inj h
    obtain rfl : _ = f := Option.some.inj (Except.ok.inj hr)
    refine ⟨?_, by simpa using hc, by simp⟩
    simp only [List.length_drop, List.length_take]
    simp only [HEADER_LEN_BASE] at hle ⊢
    omega
  · obtain ⟨-, hr⟩ := LoopStep.done.inj h
    obtain rfl : _ = f := Option.some.inj (Except.ok.inj hr)
    refine ⟨?_, by simpa using hc, ?_⟩
    · simp only [List.length_drop, List.length_take]
      simp only [HEADER_LEN_WITH_CRC] at hle ⊢
      omega
    · intro c hcEq
      obtain rfl : _ = c := Option.some.inj hcEq
      rw [readLe32_take _ _ _ (by simp only [HEADER_LEN_WITH_CRC]; omega)]

/-! ## nextFrameLoop: fuel irrelevance, forward progress, frame invariants -/

theorem nextFrameLoop_fuel_stable (cfg : DecoderConfig) :
    ∀ fuel1 fuel2 buf dropped, buf.length < fuel1 → buf.length < fuel2 →
      nextFrameLoop cfg fuel1 buf dropped = nextFrameLoop cfg fuel2 buf dropped := by
  intro fuel1
  induction fuel1 with
  | zero => intro fuel2 buf dropped h1; omega
  | succ f ih =>
    intro fuel2 buf dropped h1 h2
    cases fuel2 with
    | zero => omega
    | succ g =>
      by_cases hlen4 : buf.length < MAGIC.length
      · rw [nextFrameLoop, nextFrameLoop, if_pos hlen4, if_pos hlen4]
      by_cases htake : buf.take MAGIC.length = MAGIC
      · rw [nextFrameLoop, nextFrameLoop, if_neg hlen4, if_neg hlen4,
          if_pos htake, if_pos htake]
        rcases hpa : parseAligned cfg buf dropped with ⟨b, r⟩ | ⟨b, dr⟩
        · simp only [hpa]
        · simp only [hpa]
          obtain ⟨rfl, -, h16⟩ := parseAligned_retry_char cfg buf dropped b dr hpa
          apply ih
          · simp only [List.length_drop]; omega
          · simp only [List.length_drop]; omega
      · rcases hfm : find_magic buf with - | n
        · rw [nextFrameLoop, nextFrameLoop, if_neg hlen4, if_neg hlen4,
            if_neg htake, if_neg htake]
          simp only [hfm]
        · have hn : n ≠ 0 := by
            intro h0
            subst h0
            exact htake (by simpa [MAGIC] using find_magic_zero buf hfm)
          rw [nextFrameLoop, nextFrameLoop, if_neg hlen4, if_neg hlen4,
            if_neg htake, if_neg htake]
          simp only [hfm]
          rw [if_pos (show dropped + n > 0 by omega),
            if_pos (show dropped + n > 0 by omega)]

theorem len4_of_not_lt (buf : List Nat) (h : ¬ buf.length < MAGIC.length) :
    4 ≤ buf.length := by
  simp only [MAGIC, List.length_cons, List.length_nil] at h
  omega

theorem nextFrameLoop_error_progress (cfg : DecoderConfig) :
    ∀ fuel buf dropped buf' e,
      nextFrameLoop cfg fuel buf dropped = (buf', .error e) →
      buf'.length < buf.length := by
  intro fuel
  induction fuel with
  | zero =>
    intro buf dropped buf' e h
    rw [nextFrameLoop] at h
    exact Except.noConfusion (Prod.mk.inj h).2
  | succ f ih =>
    intro buf dropped buf' e h
    rw [nextFrameLoop] at h
    by_cases hlen4 : buf.length < MAGIC.length
    · rw [if_pos hlen4] at h
      exact Except.noConfusion (Prod.mk.inj h).2
    have h4 : 4 ≤ buf.length := len4_of_not_lt buf hlen4
    rw [if_neg hlen4] at h
    by_cases htake : buf.take MAGIC.length = MAGIC
    · rw [if_pos htake] at h
      rcases hpa : parseAligned cfg buf dropped with ⟨b, r⟩ | ⟨b, dr⟩
      · rw [hpa] at h
        obtain ⟨hb, hr⟩ := Prod.mk.inj h
        subst hb
        subst hr
        exact parseAligned_error_char cfg buf dropped _ _ hpa
      · rw [hpa] at h
        obtain ⟨rfl, -, h16⟩ := parseAligned_retry_char cfg buf dropped b dr hpa
        have := ih _ _ _ _ h
        simp only [List.length_drop] at this ⊢
        omega
    · rw [if_neg htake] at h
      rcases hfm : find_magic buf with - | n
      · simp only [hfm] at h
        by_cases hk : buf.length > MAGIC.length - 1
        · rw [if_pos hk] at h
          obtain ⟨hb, -⟩ := Prod.mk.inj h
          subst hb
          simp only [List.length_drop, MAGIC, List.length_cons, List.length_nil] at *
          omega
        · exact absurd (by simp only [MAGIC, List.length_cons, List.length_nil]; omega) hk
      · simp only [hfm] at h
        have hn : n ≠ 0 := by
          intro h0
          subst h0
          exact htake (by simpa [MAGIC] using find_magic_zero buf hfm)
        rw [if_pos (show dropped + n > 0 by omega)] at h
        obtain ⟨hb, -⟩ := Prod.mk.inj h
        subst hb
        simp only [List.length_drop]
        omega

theorem nextFrameLoop_ok_some (cfg : DecoderConfig) :
    ∀ fuel buf dropped buf' f,
      nextFrameLoop cfg fuel buf dropped = (buf', .ok (some f)) →
      f.payload.length = f.header.payload_len ∧
      (f.header.payload_crc32 = none ↔ f.header.flags &&& FLAG_CRC32 = 0) ∧
      (∀ c, f.header.payload_crc32 = some c →
        ∃ i, (buf.drop i).take 4 = MAGIC ∧ c = readLe32 (buf.drop i) 16) := by
  intro fuel
  induction fuel with
  | zero =>
    intro buf dropped buf' f h
    rw [nextFrameLoop] at h
    exact Option.noConfusion (Except.ok.inj (Prod.mk.inj h).2)
  | succ fl ih =>
    intro buf dropped buf' f h
    rw [nextFrameLoop] at h
    by_cases hlen4 : buf.length < MAGIC.length
    · rw [if_pos hlen4] at h
      exact Option.noConfusion (Except.ok.inj (Prod.mk.inj h).2)
    rw [if_neg hlen4] at h
    by_cases htake : buf.take MAGIC.length = MAGIC
    · rw [if_pos htake] at h
      rcases hpa : parseAligned cfg buf dropped with ⟨b, r⟩ | ⟨b, dr⟩
      · rw [hpa] at h
        obtain ⟨-, hr⟩ := Prod.mk.inj h
        subst hr
        obtain ⟨p1, p2, p3⟩ := parseAligned_ok_some_char cfg buf dropped b f hpa
        refine ⟨p1, p2, fun c hsome => ⟨0, ?_, ?_⟩⟩
        · simpa [MAGIC] using htake
        · simpa using p3 c hsome
      · rw [hpa] at h
        obtain ⟨rfl, -, h16⟩ := parseAligned_retry_char cfg buf dropped b dr hpa
        obtain ⟨p1, p2, p3⟩ := ih _ _ _ _ h
        refine ⟨p1, p2, fun c hsome => ?_⟩
        obtain ⟨i, hi1, hi2⟩ := p3 c hsome
        rw [List.drop_drop] at hi1 hi2
        exact ⟨1 + i, hi1, hi2⟩
    · rw [if_neg htake] at h
      rcases hfm : find_magic buf with - | n
      · simp only [hfm] at h
        by_cases hk : buf.length > MAGIC.length - 1
        · rw [if_pos hk] at h
          exact Except.noConfusion (Prod.mk.inj h).2
        · rw [if_neg hk] at h
          exact Except.noConfusion (Prod.mk.inj h).2
      · simp only [hfm] at h
        have hn : n ≠ 0 := by
          intro h0
          subst h0
          exact htake (by simpa [MAGIC] using find_magic_zero buf hfm)
        rw [if_pos (show dropped + n > 0 by omega)] at h
        exact Except.noConfusion (Prod.mk.inj h).2

/-- Claim C7: decoder forward progress.  next_frame is total: its result is
independent of any fuel bound above the internal one (the loop terminates);
whenever it returns an error, at least one byte has been consumed from the
internal buffer during that call, so the same bytes are never reported as
the same error twice. -/
theorem c7_forward_progress (d : FrameDecoder) :
    (∀ fuel, d.buf.length < fuel →
      nextFrameLoop d.cfg fuel d.buf 0 =
        nextFrameLoop d.cfg (d.buf.length + 1) d.buf 0) ∧
    (∀ d' e, d.next_frame = (d', .error e) → d'.buf.length < d.buf.length) := by
  constructor
  · intro fuel hf
    exact nextFrameLoop_fuel_stable d.cfg fuel (d.buf.length + 1) d.buf 0 hf
      (by omega)
  · intro d' e h
    unfold FrameDecoder.next_frame at h
    obtain ⟨h1, h2⟩ := Prod.mk.inj h
    have hb : d'.buf = (nextFrameLoop d.cfg (d.buf.length + 1) d.buf 0).1 := by
      rw [← h1]
    rw [hb]
    exact nextFrameLoop_error_progress d.cfg (d.buf.length + 1) d.buf 0 _ e
      (by rw [← h2])

theorem c7_forward_progress_witness :
    nextFrameLoop DecoderConfig.default 9 [0, 72, 77, 73, 80] 0 =
      nextFrameLoop DecoderConfig.default 6 [0, 72, 77, 73, 80] 0 ∧
    (FrameDecoder.mk DecoderConfig.default [72, 77, 73, 80]).buf.length <
      (FrameDecoder.mk DecoderConfig.default [0, 72, 77, 73, 80]).buf.length :=
  ⟨(c7_forward_progress ⟨.default, [0, 72, 77, 73, 80]⟩).1 9 (by decide),
   (c7_forward_progress ⟨.default, [0, 72, 77, 73, 80]⟩).2
     ⟨.default, [72, 77, 73, 80]⟩ ⟨.resyncDropped, 1⟩ rfl⟩

/-- Claim C9: frame well-formedness invariant.  Every Frame returned by
next_frame has payload length equal to its header's payload_len; its
payload_crc32 is present exactly when bit 0 of flags is set, and its value
is then the little-endian u32 embedded 16 bytes after the start of the
frame's magic in the pre-call buffer. -/
theorem c9_frame_invariant (d d' : FrameDecoder) (f : Frame)
    (h : d.next_frame = (d', .ok (some f))) :
    f.payload.length = f.header.payload_len ∧
    (f.header.payload_crc32.isSome ↔ f.header.flags &&& FLAG_CRC32 ≠ 0) ∧
    (∀ c, f.header.payload_crc32 = some c →
      ∃ i, (d.buf.drop i).take 4 = MAGIC ∧ c = readLe32 (d.buf.drop i) 16) := by
  unfold FrameDecoder.next_frame at h
  obtain ⟨-, h2⟩ := Prod.mk.inj h
  obtain ⟨p1, p2, p3⟩ := nextFrameLoop_ok_some d.cfg (d.buf.length + 1) d.buf 0 _ f
    (by rw [← h2])
  refine ⟨p1, ?_, p3⟩
  have hs : f.header.payload_crc32.isSome ↔ ¬ (f.header.payload_crc32 = none) := by
    cases f.header.payload_crc32 <;> simp
  rw [hs, p2]

theorem c9_frame_invariant_witness :
    (expectedFrame ⟨0x20, 1, 2, 42, [104, 101, 108, 108, 111]⟩).payload.length =
      (expectedFrame ⟨0x20, 1, 2, 42, [104, 101, 108, 108, 111]⟩).header.payload_len ∧
    ((expectedFrame ⟨0x20, 1, 2, 42, [104, 101, 108, 108, 111]⟩).header.payload_crc32.isSome ↔
      (expectedFrame ⟨0x20, 1, 2, 42, [104, 101, 108, 108, 111]⟩).header.flags &&&
        FLAG_CRC32 ≠ 0) ∧
    (∀ c, (expectedFrame ⟨0x20, 1, 2, 42, [104, 101, 108, 108, 111]⟩).header.payload_crc32 =
        some c →
      ∃ i, (((FrameDecoder.mk DecoderConfig.default
          (encode_frame ⟨0x20, 1, 2, 42, [104, 101, 108, 108, 111]⟩)).buf.drop i).take 4 =
          MAGIC ∧
        c = readLe32 ((FrameDecoder.mk DecoderConfig.default
          (encode_frame ⟨0x20, 1, 2, 42, [104, 101, 108, 108, 111]⟩)).buf.drop i) 16)) :=
  c9_frame_invariant
    ⟨.default, encode_frame ⟨0x20, 1, 2, 42, [104, 101, 108, 108, 111]⟩⟩
    ⟨.default, []⟩ (expectedFrame ⟨0x20, 1, 2, 42, [104, 101, 108, 108, 111]⟩)
    (by
      have h := next_frame_encode .default ⟨0x20, 1, 2, 42, [104, 101, 108, 108, 111]⟩
        [] (by decide)
      rw [List.append_nil] at h
      exact h)

/-! ## Resynchronization (claim C3) -/

theorem encode_frame_take4 (p : EncodeFrameParams) :
    (encode_frame p).take 4 = MAGIC := rfl

theorem runToFrame_two (d : FrameDecoder) :
    runToFrame 2 d =
      (match d.next_frame with
      | (d', .ok (some f)) => ([], some (f, d'))
      | (_, .ok none) => ([], none)
      | (d', .error e) =>
        let r := runToFrame 1 d'
        (e :: r.1, r.2)) := rfl

theorem runToFrame_one (d : FrameDecoder) :
    runToFrame 1 d =
      (match d.next_frame with
      | (d', .ok (some f)) => ([], some (f, d'))
      | (_, .ok none) => ([], none)
      | (d', .error e) =>
        let r := runToFrame 0 d'
        (e :: r.1, r.2)) := rfl

/-- On garbage (containing no magic) followed by an encoded frame, the first
next_frame call drops exactly the garbage and reports it. -/
theorem next_frame_garbage (cfg : DecoderConfig) (p : EncodeFrameParams)
    (G : List Nat) (h : ValidParams cfg p)
    (hG : ∀ k, k < G.length → (G.drop k).take 4 ≠ MAGIC) (hne : G ≠ []) :
    FrameDecoder.next_frame ⟨cfg, G ++ encode_frame p⟩ =
      (⟨cfg, encode_frame p⟩, .error ⟨.resyncDropped, G.length⟩) := by
  have h16 := encode_frame_length_ge p
  have hGpos : 0 < G.length := List.length_pos.mpr hne
  have hlen4 : ¬ ((G ++ encode_frame p).length < MAGIC.length) := by
    simp only [MAGIC, List.length_append, List.length_cons, List.length_nil]
    omega
  have htake : ¬ ((G ++ encode_frame p).take MAGIC.length = MAGIC) := by
    by_cases hG4 : 4 ≤ G.length
    · rw [show MAGIC.length = 4 from rfl, List.take_append_of_le_length hG4]
      simpa using hG 0 (by omega)
    · exact straddle_ne G (encode_frame p) (by omega) hne (encode_frame_take4 p)
  have hfm : find_magic (G ++ encode_frame p) = some G.length :=
    find_magic_append G (encode_frame p) hG (encode_frame_take4 p)
  unfold FrameDecoder.next_frame
  rw [nextFrameLoop, if_neg hlen4, if_neg htake]
  simp only [hfm]
  rw [if_pos (show 0 + G.length > 0 by omega)]
  simp [List.drop_left]

/-- Claim C3: resync liveness.  Pushing garbage (no occurrence of the magic)
followed by a valid encoded frame into a fresh decoder and calling
next_frame repeatedly yields exactly that frame after a run of resync
errors whose dropped_bytes sum to the garbage length, and a further call
reports no frame. -/
theorem c3_resync_liveness (cfg : DecoderConfig) (p : EncodeFrameParams)
    (G : List Nat) (h : ValidParams cfg p)
    (hG : ∀ k, k < G.length → (G.drop k).take 4 ≠ MAGIC)
    (hbound : G.length + (encode_frame p).length ≤ cfg.max_buffer_len) :
    ((FrameDecoder.new cfg).push (G ++ encode_frame p)).2 = .ok () ∧
    ∃ errs d',
      runToFrame 2 ((FrameDecoder.new cfg).push (G ++ encode_frame p)).1 =
        (errs, some (expectedFrame p, d')) ∧
      (errs.map DecodeError.dropped_bytes).sum = G.length ∧
      d'.next_frame = (d', .ok none) := by
  have hpush : (FrameDecoder.new cfg).push (G ++ encode_frame p) =
      (⟨cfg, G ++ encode_frame p⟩, .ok ()) := by
    rw [push_ok _ _ (by
      simp only [FrameDecoder.new, List.length_nil, List.length_append]
      omega)]
    simp [FrameDecoder.new]
  refine ⟨by rw [hpush], ?_⟩
  rw [hpush]
  have henc : FrameDecoder.next_frame ⟨cfg, encode_frame p⟩ =
      (⟨cfg, []⟩, .ok (some (expectedFrame p))) := by
    have := next_frame_encode cfg p [] h
    rwa [List.append_nil] at this
  by_cases hne : G = []
  · subst hne
    refine ⟨[], ⟨cfg, []⟩, ?_, by simp, next_frame_nil cfg⟩
    rw [show ([] : List Nat) ++ encode_frame p = encode_frame p from rfl]
    simp only [runToFrame_two, henc]
  · refine ⟨[⟨.resyncDropped, G.length⟩], ⟨cfg, []⟩, ?_, by simp, next_frame_nil cfg⟩
    have hgar := next_frame_garbage cfg p G h hG hne
    simp only [runToFrame_two, hgar, runToFrame_one, henc]

theorem c3_resync_liveness_witness :
    (((FrameDecoder.new .default).push
      ([0, 1, 2] ++ encode_frame ⟨0x10, 0, 0, 9, [1, 2, 3]⟩)).2 = .ok ()) ∧
    ∃ errs d',
      runToFrame 2 ((FrameDecoder.new .default).push
          ([0, 1, 2] ++ encode_frame ⟨0x10, 0, 0, 9, [1, 2, 3]⟩)).1 =
        (errs, some (expectedFrame ⟨0x10, 0, 0, 9, [1, 2, 3]⟩, d')) ∧
      (errs.map DecodeError.dropped_bytes).sum = [0, 1, 2].length ∧
      d'.next_frame = (d', .ok none) :=
  c3_resync_liveness .default ⟨0x10, 0, 0, 9, [1, 2, 3]⟩ [0, 1, 2]
    (by decide) (by decide) (by decide)

/-! ## Message decode error characterization (claim C4)

The *ErrSpec predicates transcribe the spec's error conditions (amended by
the two conditions the code actually enforces beyond the spec sentence: the
HELLO role byte must be 0 or 1, and a HEARTBEAT payload must be exactly 8
bytes, not merely at least 8). -/

theorem map_error_iff {α β γ : Type} (m : Except γ α) (f : α → β) :
    (∃ e, m.map f = .error e) ↔ (∃ e, m = .error e) := by
  cases m <;> simp [Except.map]

theorem decode_hello_error_iff (p : List Nat) :
    (∃ e, decode_hello p = .error e) ↔ helloErrSpec p := by
  unfold decode_hello helloErrSpec
  by_cases h1 : p.length < 1 + 4 + 1
  · simp only [if_pos h1]
    constructor
    · intro _; left; omega
    · intro _; exact ⟨_, rfl⟩
  · simp only [if_neg h1]
    rcases hr : Role.from_u8 (p.getD 0 0) with - | role
    · constructor
      · intro _; right; left; rfl
      · intro _; exact ⟨_, rfl⟩
    · by_cases h2 : p.length < 6 + p.getD 5 0
      · simp only [if_pos h2]
        constructor
        · intro _; right; right; left; exact h2
        · intro _; exact ⟨_, rfl⟩
      · simp only [if_neg h2]
        by_cases h3 : utf8Valid ((p.drop 6).take (p.getD 5 0))
        · simp only [if_pos h3]
          constructor
          · rintro ⟨e, he⟩; exact Except.noConfusion he
          · rintro (hc | hc | hc | hc)
            · omega
            · exact Option.noConfusion hc
            · omega
            · exact absurd h3 hc
        · simp only [if_neg h3]
          exact ⟨fun _ => Or.inr (Or.inr (Or.inr h3)), fun _ => ⟨_, rfl⟩⟩

theorem decode_hello_ack_error_iff (p : List Nat) :
    (∃ e, decode_hello_ack p = .error e) ↔ helloAckErrSpec p := by
  unfold decode_hello_ack helloAckErrSpec
  by_cases h1 : p.length < 4 + 1
  · simp only [if_pos h1]
    exact ⟨fun _ => Or.inl (by omega), fun _ => ⟨_, rfl⟩⟩
  · simp only [if_neg h1]
    by_cases h2 : p.length < 5 + p.getD 4 0
    · simp only [if_pos h2]
      exact ⟨fun _ => Or.inr (Or.inl h2), fun _ => ⟨_, rfl⟩⟩
    · simp only [if_neg h2]
      by_cases h3 : utf8Valid ((p.drop 5).take (p.getD 4 0))
      · simp only [if_pos h3]
        constructor
        · rintro ⟨e, he⟩; exact Except.noConfusion he
        · rintro (hc | hc | hc)
          · omega
          · omega
          · exact absurd h3 hc
      · simp only [if_neg h3]
        exact ⟨fun _ => Or.inr (Or.inr h3), fun _ => ⟨_, rfl⟩⟩

theorem decode_heartbeat_error_iff (p : List Nat) :
    (∃ e, decode_heartbeat p = .error e) ↔ heartbeatErrSpec p := by
  unfold decode_heartbeat heartbeatErrSpec
  by_cases h1 : p.length ≠ 8
  · simp only [if_pos h1]
    exact ⟨fun _ => h1, fun _ => ⟨_, rfl⟩⟩
  · simp only [if_neg h1]
    constructor
    · rintro ⟨e, he⟩; exact Except.noConfusion he
    · intro hc; exact absurd hc h1

theorem decode_request_error_iff (p : List Nat) :
    (∃ e, decode_request p = .error e) ↔ requestErrSpec p := by
  unfold decode_request requestErrSpec
  by_cases h1 : p.length < 8
  · simp only [if_pos h1]
    exact ⟨fun _ => h1, fun _ => ⟨_, rfl⟩⟩
  · simp only [if_neg h1]
    constructor
    · rintro ⟨e, he⟩; exact Except.noConfusion he
    · intro hc; exact absurd hc h1

theorem decode_response_error_iff (p : List Nat) :
    (∃ e, decode_response p = .error e) ↔ responseErrSpec p := by
  unfold decode_response responseErrSpec
  by_cases h1 : p.length < 8
  · simp only [if_pos h1]
    exact ⟨fun _ => h1, fun _ => ⟨_, rfl⟩⟩
  · simp only [if_neg h1]
    constructor
    · rintro ⟨e, he⟩; exact Except.noConfusion he
    · intro hc; exact absurd hc h1

theorem decode_event_error_iff (p : List Nat) :
    (∃ e, decode_event p = .error e) ↔ eventErrSpec p := by
  unfold decode_event eventErrSpec
  by_cases h1 : p.length < 12
  · simp only [if_pos h1]
    exact ⟨fun _ => h1, fun _ => ⟨_, rfl⟩⟩
  · simp only [if_neg h1]
    constructor
    · rintro ⟨e, he⟩; exact Except.noConfusion he
    · intro hc; exact absurd hc h1

theorem decode_error_error_iff (p : List Nat) :
    (∃ e, decode_error p = .error e) ↔ errorMsgErrSpec p := by
  unfold decode_error errorMsgErrSpec
  by_cases h1 : p.length < 2 + 2 + 2
  · simp only [if_pos h1]
    exact ⟨fun _ => Or.inl (by omega), fun _ => ⟨_, rfl⟩⟩
  · simp only [if_neg h1]
    by_cases h2 : p.length < 6 + (p.getD 4 0 + 256 * p.getD 5 0)
    · simp only [if_pos h2]
      exact ⟨fun _ => Or.inr (Or.inl h2), fun _ => ⟨_, rfl⟩⟩
    · simp only [if_neg h2]
      by_cases h3 : utf8Valid ((p.drop 6).take (p.getD 4 0 + 256 * p.getD 5 0))
      · simp only [if_pos h3]
        constructor
        · rintro ⟨e, he⟩; exact Except.noConfusion he
        · rintro (hc | hc | hc)
          · omega
          · omega
          · exact absurd h3 hc
      · simp only [if_neg h3]
        exact ⟨fun _ => Or.inr (Or.inr h3), fun _ => ⟨_, rfl⟩⟩

/-- Claim C4, counterexample: a HELLO frame whose payload satisfies none of
the spec's three error conditions (length 6, name_len 0, empty name valid
UTF-8) is still rejected by decode_message, because its role byte is 2. -/
theorem c4_counterexample :
    decode_message ⟨⟨msg_type.HELLO, 0, 0, 0, 6, none⟩, [2, 0, 0, 0, 0, 0]⟩ =
      .error .helloInvalidRole ∧
    ¬ (([2, 0, 0, 0, 0, 0] : List Nat).length < 6 ∨
       ([2, 0, 0, 0, 0, 0] : List Nat).length <
         6 + ([2, 0, 0, 0, 0, 0] : List Nat).getD 5 0 ∨
       ¬ utf8Valid ((([2, 0, 0, 0, 0, 0] : List Nat).drop 6).take
         (([2, 0, 0, 0, 0, 0] : List Nat).getD 5 0))) :=
  ⟨rfl, by decide⟩

/-- Claim C4, amended: for every Frame with a recognized msg_type,
decode_message errors exactly when the payload is shorter than the type's
fixed header, a length-prefixed string's declared length exceeds the
remaining bytes, a name/message field is not valid UTF-8, the HELLO role
byte is neither 0 nor 1, or a HEARTBEAT payload's length differs from 8;
for any other msg_type decode_message returns Raw with the payload
unchanged. -/
theorem c4_decode_error_characterization (frame : Frame) :
    (frame.header.msg_type = msg_type.HELLO →
      ((∃ e, decode_message frame = .error e) ↔ helloErrSpec frame.payload)) ∧
    (frame.header.msg_type = msg_type.HELLO_ACK →
      ((∃ e, decode_message frame = .error e) ↔ helloAckErrSpec frame.payload)) ∧
    (frame.header.msg_type = msg_type.HEARTBEAT →
      ((∃ e, decode_message frame = .error e) ↔ heartbeatErrSpec frame.payload)) ∧
    (frame.header.msg_type = msg_type.REQUEST →
      ((∃ e, decode_message frame = .error e) ↔ requestErrSpec frame.payload)) ∧
    (frame.header.msg_type = msg_type.RESPONSE →
      ((∃ e, decode_message frame = .error e) ↔ responseErrSpec frame.payload)) ∧
    (frame.header.msg_type = msg_type.EVENT →
      ((∃ e, decode_message frame = .error e) ↔ eventErrSpec frame.payload)) ∧
    (frame.header.msg_type = msg_type.ERROR →
      ((∃ e, decode_message frame = .error e) ↔ errorMsgErrSpec frame.payload)) ∧
    (frame.header.msg_type ≠ msg_type.HELLO →
      frame.header.msg_type ≠ msg_type.HELLO_ACK →
      frame.header.msg_type ≠ msg_type.HEARTBEAT →
      frame.header.msg_type ≠ msg_type.REQUEST →
      frame.header.msg_type ≠ msg_type.RESPONSE →
      frame.header.msg_type ≠ msg_type.EVENT →
      frame.header.msg_type ≠ msg_type.ERROR →
      decode_message frame = .ok (.raw frame.header.msg_type frame.payload)) := by
  refine ⟨?_, ?_, ?_, ?_, ?_, ?_, ?_, ?_⟩
  · intro hm
    rw [show decode_message frame = (decode_hello frame.payload).map .hello by
      unfold decode_message; rw [if_pos hm]]
    rw [map_error_iff]
    exact decode_hello_error_iff frame.payload
  · intro hm
    rw [show decode_message frame = (decode_hello_ack frame.payload).map .helloAck by
      unfold decode_message
      rw [if_neg (by rw [hm]; decide), if_pos hm]]
    rw [map_error_iff]
    exact decode_hello_ack_error_iff frame.payload
  · intro hm
    rw [show decode_message frame = (decode_heartbeat frame.payload).map .heartbeat by
      unfold decode_message
      rw [if_neg (by rw [hm]; decide), if_neg (by rw [hm]; decide), if_pos hm]]
    rw [map_error_iff]
    exact decode_heartbeat_error_iff frame.payload
  · intro hm
    rw [show decode_message frame = (decode_request frame.payload).map .request by
      unfold decode_message
      rw [if_neg (by rw [hm]; decide), if_neg (by rw [hm]; decide),
        if_neg (by rw [hm]; decide), if_pos hm]]
    rw [map_error_iff]
    exact decode_request_error_iff frame.payload
  · intro hm
    rw [show decode_message frame = (decode_response frame.payload).map .response by
      unfold decode_message
      rw [if_neg (by rw [hm]; decide), if_neg (by rw [hm]; decide),
        if_neg (by rw [hm]; decide), if_neg (by rw [hm]; decide), if_pos hm]]
    rw [map_error_iff]
    exact decode_response_error_iff frame.payload
  · intro hm
    rw [show decode_message frame = (decode_event frame.payload).map .event by
      unfold decode_message
      rw [if_neg (by rw [hm]; decide), if_neg (by rw [hm]; decide),
        if_neg (by rw [hm]; decide), if_neg (by rw [hm]; decide),
        if_neg (by rw [hm]; decide), if_pos hm]]
    rw [map_error_iff]
    exact decode_event_error_iff frame.payload
  · intro hm
    rw [show decode_message frame = (decode_error frame.payload).map .protoErr by
      unfold decode_message
      rw [if_neg (by rw [hm]; decide), if_neg (by rw [hm]; decide),
        if_neg (by rw [hm]; decide), if_neg (by rw [hm]; decide),
        if_neg (by rw [hm]; decide), if_neg (by rw [hm]; decide), if_pos hm]]
    rw [map_error_iff]
    exact decode_error_error_iff frame.payload
  · intro h1 h2 h3 h4 h5 h6 h7
    unfold decode_message
    rw [if_neg h1, if_neg h2, if_neg h3, if_neg h4, if_neg h5, if_neg h6,
      if_neg h7]

theorem c4_decode_error_characterization_witness :
    (∃ e, decode_message ⟨⟨msg_type.HEARTBEAT, 0, 0, 0, 9, none⟩,
      [0, 0, 0, 0, 0, 0, 0, 0, 0]⟩ = .error e) ∧
    decode_message ⟨⟨0x42, 0, 0, 0, 1, none⟩, [7]⟩ = .ok (.raw 0x42 [7]) :=
  ⟨((c4_decode_error_characterization ⟨⟨msg_type.HEARTBEAT, 0, 0, 0, 9, none⟩,
      [0, 0, 0, 0, 0, 0, 0, 0, 0]⟩).2.2.1 rfl).mpr (by simp [heartbeatErrSpec]),
   (c4_decode_error_characterization ⟨⟨0x42, 0, 0, 0, 1, none⟩, [7]⟩).2.2.2.2.2.2.2
     (by decide) (by decide) (by decide) (by decide) (by decide) (by decide)
     (by decide)⟩

/-! ## Encode-time truncation (claim C10) -/

theorem decode_hello_ok_name (p : List Nat) (hh : Hello)
    (h : decode_hello p = .ok hh) :
    hh.name = (p.drop 6).take (p.getD 5 0) := by
  unfold decode_hello at h
  by_cases h1 : p.length < 1 + 4 + 1
  · rw [if_pos h1] at h; exact Except.noConfusion h
  rw [if_neg h1] at h
  rcases hr : Role.from_u8 (p.getD 0 0) with - | role <;> simp only [hr] at h
  · exact Except.noConfusion h
  by_cases h2 : p.length < 6 + p.getD 5 0
  · rw [if_pos h2] at h; exact Except.noConfusion h
  rw [if_neg h2] at h
  by_cases h3 : utf8Valid ((p.drop 6).take (p.getD 5 0))
  · rw [if_pos h3] at h
    rw [← Except.ok.inj h]
  · rw [if_neg h3] at h; exact Except.noConfusion h

theorem decode_hello_ack_ok_name (p : List Nat) (hh : HelloAck)
    (h : decode_hello_ack p = .ok hh) :
    hh.name = (p.drop 5).take (p.getD 4 0) := by
  unfold decode_hello_ack at h
  by_cases h1 : p.length < 4 + 1
  · rw [if_pos h1] at h; exact Except.noConfusion h
  rw [if_neg h1] at h
  by_cases h2 : p.length < 5 + p.getD 4 0
  · rw [if_pos h2] at h; exact Except.noConfusion h
  rw [if_neg h2] at h
  by_cases h3 : utf8Valid ((p.drop 5).take (p.getD 4 0))
  · rw [if_pos h3] at h
    rw [← Except.ok.inj h]
  · rw [if_neg h3] at h; exact Except.noConfusion h

theorem decode_error_ok_message (p : List Nat) (pe : ProtoError)
    (h : decode_error p = .ok pe) :
    pe.message = (p.drop 6).take (p.getD 4 0 + 256 * p.getD 5 0) := by
  unfold decode_error at h
  by_cases h1 : p.length < 2 + 2 + 2
  · rw [if_pos h1] at h; exact Except.noConfusion h
  rw [if_neg h1] at h
  by_cases h2 : p.length < 6 + (p.getD 4 0 + 256 * p.getD 5 0)
  · rw [if_pos h2] at h; exact Except.noConfusion h
  rw [if_neg h2] at h
  by_cases h3 : utf8Valid ((p.drop 6).take (p.getD 4 0 + 256 * p.getD 5 0))
  · rw [if_pos h3] at h
    rw [← Except.ok.inj h]
  · rw [if_neg h3] at h; exact Except.noConfusion h

theorem encode_hello_shape (h : Hello) :
    encode_hello h = h.role.as_u8 :: (h.capabilities % 256) ::
      (h.capabilities / 256 % 256) :: (h.capabilities / 65536 % 256) ::
      (h.capabilities / 16777216 % 256) :: min h.name.length 255 ::
      h.name.take (min h.name.length 255) := by
  simp [encode_hello, le32]

theorem encode_hello_ack_shape (a : HelloAck) :
    encode_hello_ack a = (a.capabilities % 256) ::
      (a.capabilities / 256 % 256) :: (a.capabilities / 65536 % 256) ::
      (a.capabilities / 16777216 % 256) :: min a.name.length 255 ::
      a.name.take (min a.name.length 255) := by
  simp [encode_hello_ack, le32]

theorem encode_error_shape (e : ProtoError) :
    encode_error e = (e.code % 256) :: (e.code / 256 % 256) :: 0 :: 0 ::
      (min e.message.length 65535 % 256) ::
      (min e.message.length 65535 / 256 % 256) ::
      e.message.take (min e.message.length 65535) := by
  simp [encode_error, le16]

theorem c10_hello_shape_part (h : Hello) :
    (encode_hello h).length = 6 + min h.name.length 255 ∧
      (encode_hello h).getD 5 0 = min h.name.length 255 ∧
      (encode_hello h).drop 6 = h.name.take (min h.name.length 255) := by
  rw [encode_hello_shape]
  refine ⟨?_, rfl, rfl⟩
  simp only [List.length_cons, List.length_take]
  omega

theorem c10_hello_roundtrip_part (h : Hello) (hlong : 255 < h.name.length) :
    decode_hello (encode_hello h) ≠ .ok h := by
  intro heq
  have hname := decode_hello_ok_name _ _ heq
  rw [encode_hello_shape] at hname
  have hmin : min h.name.length 255 = 255 := min_eq_right (by omega)
  rw [hmin] at hname
  have hd : ((h.role.as_u8 :: (h.capabilities % 256) ::
      (h.capabilities / 256 % 256) :: (h.capabilities / 65536 % 256) ::
      (h.capabilities / 16777216 % 256) :: (255 : Nat) ::
      h.name.take 255).drop 6) = h.name.take 255 := rfl
  have hg : ((h.role.as_u8 :: (h.capabilities % 256) ::
      (h.capabilities / 256 % 256) :: (h.capabilities / 65536 % 256) ::
      (h.capabilities / 16777216 % 256) :: (255 : Nat) ::
      h.name.take 255).getD 5 0) = 255 := rfl
  rw [hd, hg, List.take_take] at hname
  have hlen := congrArg List.length hname
  simp only [List.length_take] at hlen
  omega

theorem c10_hello_ack_shape_part (a : HelloAck) :
    (encode_hello_ack a).length = 5 + min a.name.length 255 ∧
      (encode_hello_ack a).getD 4 0 = min a.name.length 255 ∧
      (encode_hello_ack a).drop 5 = a.name.take (min a.name.length 255) := by
  rw [encode_hello_ack_shape]
  refine ⟨?_, rfl, rfl⟩
  simp only [List.length_cons, List.length_take]
  omega

theorem c10_hello_ack_roundtrip_part (a : HelloAck) (hlong : 255 < a.name.length) :
    decode_hello_ack (encode_hello_ack a) ≠ .ok a := by
  intro heq
  have hname := decode_hello_ack_ok_name _ _ heq
  rw [encode_hello_ack_shape] at hname
  have hmin : min a.name.length 255 = 255 := min_eq_right (by omega)
  rw [hmin] at hname
  have hd : (((a.capabilities % 256) ::
      (a.capabilities / 256 % 256) :: (a.capabilities / 65536 % 256) ::
      (a.capabilities / 16777216 % 256) :: (255 : Nat) ::
      a.name.take 255).drop 5) = a.name.take 255 := rfl
  have hg : (((a.capabilities % 256) ::
      (a.capabilities / 256 % 256) :: (a.capabilities / 65536 % 256) ::
      (a.capabilities / 16777216 % 256) :: (255 : Nat) ::
      a.name.take 255).getD 4 0) = 255 := rfl
  rw [hd, hg, List.take_take] at hname
  have hlen := congrArg List.length hname
  simp only [List.length_take] at hlen
  omega

theorem c10_error_shape_part (e : ProtoError) :
    (encode_error e).length = 6 + min e.message.length 65535 ∧
      (encode_error e).drop 6 = e.message.take (min e.message.length 65535) := by
  rw [encode_error_shape]
  refine ⟨?_, rfl⟩
  simp only [List.length_cons, List.length_take]
  omega

theorem c10_error_roundtrip_part (e : ProtoError) (hlong : 65535 < e.message.length) :
    decode_error (encode_error e) ≠ .ok e := by
  intro heq
  have hmsg := decode_error_ok_message _ _ heq
  rw [encode_error_shape] at hmsg
  have hmin : min e.message.length 65535 = 65535 := min_eq_right (by omega)
  rw [hmin] at hmsg
  have hd : (((e.code % 256) :: (e.code / 256 % 256) :: (0 : Nat) :: (0 : Nat) ::
      ((65535 : Nat) % 256) :: ((65535 : Nat) / 256 % 256) ::
      e.message.take 65535).drop 6) = e.message.take 65535 := rfl
  have hg4 : (((e.code % 256) :: (e.code / 256 % 256) :: (0 : Nat) :: (0 : Nat) ::
      ((65535 : Nat) % 256) :: ((65535 : Nat) / 256 % 256) ::
      e.message.take 65535).getD 4 0) = 255 := rfl
  have hg5 : (((e.code % 256) :: (e.code / 256 % 256) :: (0 : Nat) :: (0 : Nat) ::
      ((65535 : Nat) % 256) :: ((65535 : Nat) / 256 % 256) ::
      e.message.take 65535).getD 5 0) = 255 := rfl
  rw [hd, hg4, hg5, show (255 + 256 * 255 : Nat) = 65535 from rfl,
    List.take_take] at hmsg
  have hlen := congrArg List.length hmsg
  simp only [List.length_take] at hlen
  omega

/-- Claim C10: silent truncation of over-long strings at encode time.
encode_hello and encode_hello_ack write name_len = min(name length, 255)
and only that many name bytes; encode_error truncates the message to at
most 65535 bytes; consequently a Hello/HelloAck with a name longer than
255 bytes (or an Error message longer than 65535 bytes) does not survive
an encode-decode round trip. -/
theorem c10_encode_truncation :
    (∀ h : Hello, (encode_hello h).length = 6 + min h.name.length 255 ∧
      (encode_hello h).getD 5 0 = min h.name.length 255 ∧
      (encode_hello h).drop 6 = h.name.take (min h.name.length 255)) ∧
    (∀ h : Hello, 255 < h.name.length →
      decode_hello (encode_hello h) ≠ .ok h) ∧
    (∀ a : HelloAck, (encode_hello_ack a).length = 5 + min a.name.length 255 ∧
      (encode_hello_ack a).getD 4 0 = min a.name.length 255 ∧
      (encode_hello_ack a).drop 5 = a.name.take (min a.name.length 255)) ∧
    (∀ a : HelloAck, 255 < a.name.length →
      decode_hello_ack (encode_hello_ack a) ≠ .ok a) ∧
    (∀ e : ProtoError, (encode_error e).length = 6 + min e.message.length 65535 ∧
      (encode_error e).drop 6 = e.message.take (min e.message.length 65535)) ∧
    (∀ e : ProtoError, 65535 < e.message.length →
      decode_error (encode_error e) ≠ .ok e) :=
  ⟨c10_hello_shape_part, c10_hello_roundtrip_part, c10_hello_ack_shape_part,
   c10_hello_ack_roundtrip_part, c10_error_shape_part, c10_error_roundtrip_part⟩

theorem c10_encode_truncation_witness :
    255 < (List.replicate 256 97).length ∧
    decode_hello (encode_hello ⟨.Client, 5, List.replicate 256 97⟩) ≠
      .ok ⟨.Client, 5, List.replicate 256 97⟩ :=
  ⟨by rw [List.length_replicate]; omega,
   c10_encode_truncation.2.1 ⟨.Client, 5, List.replicate 256 97⟩
     (by rw [List.length_replicate]; omega)⟩

/-! ## Split-delivery invariance (claim C2) -/

theorem streamBytes_append (a b : List EncodeFrameParams) :
    streamBytes (a ++ b) = streamBytes a ++ streamBytes b := by
  induction a with
  | nil => simp [streamBytes]
  | cons p ps ih => simp [streamBytes, ih]

theorem streamBytes_length_ge (ps : List EncodeFrameParams) :
    ps.length ≤ (streamBytes ps).length := by
  induction ps with
  | nil => simp [streamBytes]
  | cons p t ih =>
    have := encode_frame_length_ge p
    simp only [streamBytes, List.length_append, List.length_cons]
    omega

theorem streamBytes_pos (p : EncodeFrameParams) (ps : List EncodeFrameParams) :
    16 ≤ (streamBytes (p :: ps)).length := by
  have := encode_frame_length_ge p
  simp only [streamBytes, List.length_append]
  omega

/-- Header facts read through an encoded frame (both CRC cases). -/
theorem encode_frame_header_facts (q : EncodeFrameParams)
    (hseq : q.seq < 2 ^ 32) (hplen : q.payload.length < 2 ^ 32)
    (hbytes : ∀ b ∈ q.payload, b < 256) :
    (encode_frame q).getD 4 0 = VERSION ∧
      (encode_frame q).getD 6 0 = q.flags ∧
      readLe32 (encode_frame q) 12 = q.payload.length := by
  rw [encode_frame_eq]
  by_cases hfl : q.flags &&& FLAG_CRC32 = 0
  · obtain ⟨e1, -, e3, -, e5, -, -, e8⟩ := encHeader_spec_nocrc q hfl hseq hplen
    refine ⟨?_, ?_, ?_⟩
    · rw [getD_append_left _ _ _ (by omega)]; exact e3
    · rw [getD_append_left _ _ _ (by omega)]; exact e5
    · rw [readLe32_append_left _ _ _ (by omega)]; exact e8
  · obtain ⟨e1, -, e3, -, e5, -, -, e8, -⟩ :=
      encHeader_spec_crc q hfl hseq hplen hbytes
    refine ⟨?_, ?_, ?_⟩
    · rw [getD_append_left _ _ _ (by omega)]; exact e3
    · rw [getD_append_left _ _ _ (by omega)]; exact e5
    · rw [readLe32_append_left _ _ _ (by omega)]; exact e8

/-- parseAligned on a strict prefix of an encoded valid frame reports
insufficient data and leaves the buffer unchanged. -/
theorem parseAligned_partial (cfg : DecoderConfig) (q : EncodeFrameParams)
    (n dropped : Nat) (hq : ValidParams cfg q)
    (hlen : n < (encode_frame q).length) :
    parseAligned cfg ((encode_frame q).take n) dropped =
      .done ((encode_frame q).take n) (.ok none) := by
  obtain ⟨hmt, hfl256, hch, hseq, hbytes, hmax, hplen, hbuf⟩ := hq
  have hRlen : ((encode_frame q).take n).length = n := by
    simp only [List.length_take]
    omega
  by_cases h16 : ((encode_frame q).take n).length < HEADER_LEN_BASE
  · simp only [parseAligned, if_pos h16]
  have h16' : 16 ≤ n := by
    rw [hRlen] at h16
    simp only [HEADER_LEN_BASE] at h16
    omega
  obtain ⟨hE4, hE6, hE12⟩ := encode_frame_header_facts q hseq hplen hbytes
  have hv : ((encode_frame q).take n).getD 4 0 = VERSION := by
    rw [getD_take _ _ _ (by omega)]; exact hE4
  have hfl_eq : ((encode_frame q).take n).getD 6 0 = q.flags := by
    rw [getD_take _ _ _ (by omega)]; exact hE6
  have h12 : readLe32 ((encode_frame q).take n) 12 = q.payload.length := by
    rw [readLe32_take _ _ _ (by omega)]; exact hE12
  have hverne : ¬ (VERSION ≠ VERSION) := fun h => h rfl
  have hmaxneg : ¬ (q.payload.length > cfg.max_payload_len) := by omega
  have hEL := encode_frame_length q
  by_cases hc : q.flags &&& FLAG_CRC32 ≠ 0
  · rw [if_pos hc] at hEL
    by_cases h20 : ((encode_frame q).take n).length < HEADER_LEN_WITH_CRC
    · simp only [parseAligned, if_neg h16, hv, if_neg hverne, hfl_eq, if_pos hc,
        if_pos h20]
    · have hframe : ((encode_frame q).take n).length <
          HEADER_LEN_WITH_CRC + q.payload.length := by
        rw [hRlen]
        omega
      simp only [parseAligned, if_neg h16, hv, if_neg hverne, hfl_eq, if_pos hc,
        if_neg h20, h12, if_neg hmaxneg, if_pos hframe]
  · rw [if_neg hc] at hEL
    have hframe : ((encode_frame q).take n).length <
        HEADER_LEN_BASE + q.payload.length := by
      rw [hRlen]
      omega
    simp only [parseAligned, if_neg h16, hv, if_neg hverne, hfl_eq, if_neg hc,
      h12, if_neg hmaxneg, if_pos hframe]

/-- next_frame on a strict prefix of an encoded valid frame: no frame yet,
buffer unchanged. -/
theorem next_frame_partial (cfg : DecoderConfig) (q : EncodeFrameParams)
    (n : Nat) (hq : ValidParams cfg q) (hlen : n < (encode_frame q).length) :
    FrameDecoder.next_frame ⟨cfg, (encode_frame q).take n⟩ =
      (⟨cfg, (encode_frame q).take n⟩, .ok none) := by
  unfold FrameDecoder.next_frame
  by_cases hlen4 : ((encode_frame q).take n).length < MAGIC.length
  · rw [nextFrameLoop, if_pos hlen4]
  · have hn4 : 4 ≤ n := by
      have : ((encode_frame q).take n).length ≤ n := by
        simp [List.length_take]
      simp only [MAGIC, List.length_cons, List.length_nil] at hlen4
      omega
    have htake4 : ((encode_frame q).take n).take MAGIC.length = MAGIC := by
      rw [show MAGIC.length = 4 from rfl, List.take_take,
        min_eq_left (by omega), encode_frame_take4]
    rw [nextFrameLoop, if_neg hlen4, if_pos htake4,
      parseAligned_partial cfg q n 0 hq hlen]

/-- Draining a buffer holding some complete frames followed by a strict
prefix of a further valid frame yields exactly the complete frames and
leaves the prefix buffered. -/
theorem drainAux_spec (cfg : DecoderConfig) :
    ∀ (dn : List EncodeFrameParams) (r : List Nat) (fuel : Nat),
      (∀ p ∈ dn, ValidParams cfg p) →
      (r = [] ∨ ∃ q n, ValidParams cfg q ∧ n < (encode_frame q).length ∧
        r = (encode_frame q).take n) →
      dn.length < fuel →
      drainFramesAux fuel ⟨cfg, streamBytes dn ++ r⟩ =
        (⟨cfg, r⟩, dn.map expectedFrame) := by
  intro dn
  induction dn with
  | nil =>
    intro r fuel hv hres hfuel
    cases fuel with
    | zero => omega
    | succ f =>
      rw [show streamBytes [] ++ r = r by simp [streamBytes]]
      rcases hres with rfl | ⟨q, n, hq, hn, rfl⟩
      · simp only [drainFramesAux, next_frame_nil]
        rfl
      · simp only [drainFramesAux, next_frame_partial cfg q n hq hn]
        rfl
  | cons p t ih =>
    intro r fuel hv hres hfuel
    cases fuel with
    | zero => omega
    | succ f =>
      have hstep : FrameDecoder.next_frame ⟨cfg, streamBytes (p :: t) ++ r⟩ =
          (⟨cfg, streamBytes t ++ r⟩, .ok (some (expectedFrame p))) := by
        rw [show streamBytes (p :: t) ++ r = encode_frame p ++ (streamBytes t ++ r) by
          simp [streamBytes]]
        exact next_frame_encode cfg p _ (hv p (by simp))
      simp only [drainFramesAux, hstep]
      rw [ih r f (fun x hx => hv x (by simp [hx])) hres (by
        simp only [List.length_cons] at hfuel
        omega)]
      rfl

theorem drainAll_spec (cfg : DecoderConfig) (dn : List EncodeFrameParams)
    (r : List Nat) (hv : ∀ p ∈ dn, ValidParams cfg p)
    (hres : r = [] ∨ ∃ q n, ValidParams cfg q ∧ n < (encode_frame q).length ∧
      r = (encode_frame q).take n) :
    drainAll ⟨cfg, streamBytes dn ++ r⟩ = (⟨cfg, r⟩, dn.map expectedFrame) := by
  unfold drainAll
  apply drainAux_spec cfg dn r _ hv hres
  have h1 := streamBytes_length_ge dn
  simp only [List.length_append]
  omega

/-- Any prefix of a frame stream splits as some whole frames plus a strict
prefix of the next frame. -/
theorem stream_take_decompose (cfg : DecoderConfig) :
    ∀ (Fs : List EncodeFrameParams) (t : Nat),
      (∀ p ∈ Fs, ValidParams cfg p) → t ≤ (streamBytes Fs).length →
      ∃ dn rem r, Fs = dn ++ rem ∧
        (streamBytes Fs).take t = streamBytes dn ++ r ∧
        t = (streamBytes dn).length + r.length ∧
        r = (streamBytes rem).take r.length ∧
        (r = [] ∨ ∃ q qs, rem = q :: qs ∧ r.length < (encode_frame q).length) := by
  intro Fs
  induction Fs with
  | nil =>
    intro t hv ht
    have ht0 : t = 0 := by simpa [streamBytes] using ht
    subst ht0
    exact ⟨[], [], [], rfl, by simp [streamBytes], by simp [streamBytes],
      by simp [streamBytes], Or.inl rfl⟩
  | cons q qs ih =>
    intro t hv ht
    by_cases hsmall : t < (encode_frame q).length
    · have hlen : ((streamBytes (q :: qs)).take t).length = t := by
        simp only [List.length_take]
        omega
      refine ⟨[], q :: qs, (streamBytes (q :: qs)).take t, rfl, ?_, ?_, ?_, ?_⟩
      · simp [streamBytes]
      · rw [hlen]; simp [streamBytes]
      · rw [hlen]
      · by_cases ht0 : t = 0
        · subst ht0; left; simp
        · right; exact ⟨q, qs, rfl, by rw [hlen]; omega⟩
    · have hE : (encode_frame q).length ≤ t := by omega
      have hsl : (streamBytes (q :: qs)).length =
          (encode_frame q).length + (streamBytes qs).length := by
        simp [streamBytes]
      have ht' : t - (encode_frame q).length ≤ (streamBytes qs).length := by omega
      obtain ⟨dn, rem, r, hFs, htake, hlent, hr, hres⟩ :=
        ih (t - (encode_frame q).length) (fun p hp => hv p (by simp [hp])) ht'
      refine ⟨q :: dn, rem, r, by rw [List.cons_append, ← hFs], ?_, ?_, hr, hres⟩
      · rw [show streamBytes (q :: qs) = encode_frame q ++ streamBytes qs from rfl]
        rw [show t = (encode_frame q).length + (t - (encode_frame q).length) by omega]
        rw [List.take_append, htake]
        rw [show streamBytes (q :: dn) = encode_frame q ++ streamBytes dn from rfl]
        rw [List.append_assoc]
      · rw [show streamBytes (q :: dn) = encode_frame q ++ streamBytes dn from rfl]
        simp only [List.length_append]
        omega

/-- Main split-delivery induction: starting from a residual strict-prefix
buffer, delivering all remaining stream bytes in any chunking decodes
exactly the remaining frames. -/
theorem pushDrain_inv (cfg : DecoderConfig) :
    ∀ (chunks : List (List Nat)) (rem : List EncodeFrameParams) (r : List Nat),
      (∀ p ∈ rem, ValidParams cfg p) →
      r = (streamBytes rem).take r.length →
      (r = [] ∨ ∃ q qs, rem = q :: qs ∧ r.length < (encode_frame q).length) →
      flat chunks = (streamBytes rem).drop r.length →
      r.length + (flat chunks).length ≤ cfg.max_buffer_len →
      pushAndDrainAll ⟨cfg, r⟩ chunks = (⟨cfg, []⟩, rem.map expectedFrame) := by
  intro chunks
  induction chunks with
  | nil =>
    intro rem r hv hpre hdisj hflat hbound
    have hLr : (streamBytes rem).length ≤ r.length := by
      have := congrArg List.length hflat
      simp only [flat, List.length_drop, List.length_nil] at this
      omega
    have hrL : r.length ≤ (streamBytes rem).length := by
      have := congrArg List.length hpre
      simp only [List.length_take] at this
      omega
    rcases hdisj with rfl | ⟨q, qs, rfl, hlt⟩
    · have hnil : streamBytes rem = [] := by
        have h0 : (streamBytes rem).length = 0 := by
          simp only [List.length_nil] at hLr
          omega
        exact List.eq_nil_of_length_eq_zero h0
      cases rem with
      | nil => simp [pushAndDrainAll, streamBytes]
      | cons a b =>
        exfalso
        have h16 := streamBytes_pos a b
        have h0 := congrArg List.length hnil
        simp only [List.length_nil] at h0
        omega
    · exfalso
      have h16 := encode_frame_length_ge q
      have : (encode_frame q).length ≤ (streamBytes (q :: qs)).length := by
        rw [show streamBytes (q :: qs) = encode_frame q ++ streamBytes qs from rfl]
        simp
      omega
  | cons c cs ih =>
    intro rem r hv hpre hdisj hflat hbound
    have hflatlen : (flat (c :: cs)).length = c.length + (flat cs).length := by
      simp [flat]
    have hrL : r.length ≤ (streamBytes rem).length := by
      have := congrArg List.length hpre
      simp only [List.length_take] at this
      omega
    have hL : (streamBytes rem).length = r.length + (flat (c :: cs)).length := by
      have := congrArg List.length hflat
      simp only [List.length_drop] at this
      omega
    have hpush : FrameDecoder.push ⟨cfg, r⟩ c = (⟨cfg, r ++ c⟩, .ok ()) := by
      rw [push_ok _ _ (by
        show r.length + c.length ≤ cfg.max_buffer_len
        omega)]
    have hc : c = ((streamBytes rem).drop r.length).take c.length := by
      rw [← hflat]
      rw [show flat (c :: cs) = c ++ flat cs from rfl]
      rw [List.take_left]
    have hB : r ++ c = (streamBytes rem).take (r.length + c.length) := by
      rw [List.take_add]
      rw [← hpre, ← hc]
    have ht : r.length + c.length ≤ (streamBytes rem).length := by omega
    obtain ⟨dn, rem2, r2, hrem, htake, hlent, hr2, hdisj2⟩ :=
      stream_take_decompose cfg rem (r.length + c.length) hv ht
    have hB2 : r ++ c = streamBytes dn ++ r2 := by rw [hB, htake]
    have hr2L : r2.length ≤ (streamBytes rem2).length := by
      have := congrArg List.length hr2
      simp only [List.length_take] at this
      omega
    have hvdn : ∀ p ∈ dn, ValidParams cfg p := by
      intro p hp
      exact hv p (by rw [hrem]; exact List.mem_append_left _ hp)
    have hvrem2 : ∀ p ∈ rem2, ValidParams cfg p := by
      intro p hp
      exact hv p (by rw [hrem]; exact List.mem_append_right _ hp)
    have hres : r2 = [] ∨ ∃ q n, ValidParams cfg q ∧ n < (encode_frame q).length ∧
        r2 = (encode_frame q).take n := by
      rcases hdisj2 with rfl | ⟨q, qs2, hq2, hlt⟩
      · exact Or.inl rfl
      · refine Or.inr ⟨q, r2.length, hvrem2 q (by rw [hq2]; simp), hlt, ?_⟩
        conv_lhs => rw [hr2, hq2,
          show streamBytes (q :: qs2) = encode_frame q ++ streamBytes qs2 from rfl]
        rw [List.take_append_of_le_length (by omega)]
    have hdrain : drainAll ⟨cfg, r ++ c⟩ = (⟨cfg, r2⟩, dn.map expectedFrame) := by
      rw [hB2]
      exact drainAll_spec cfg dn r2 hvdn hres
    have hsplit : streamBytes rem = streamBytes dn ++ streamBytes rem2 := by
      rw [hrem, streamBytes_append]
    have hflatcs : flat cs = (streamBytes rem2).drop r2.length := by
      have h1 : flat cs = (flat (c :: cs)).drop c.length := by
        rw [show flat (c :: cs) = c ++ flat cs from rfl, List.drop_left]
      rw [h1, hflat, List.drop_drop]
      rw [show r.length + c.length = (streamBytes dn).length + r2.length from hlent]
      rw [hsplit, List.drop_append]
    have hbound2 : r2.length + (flat cs).length ≤ cfg.max_buffer_len := by
      have h2 : (flat cs).length = (streamBytes rem2).length - r2.length := by
        have := congrArg List.length hflatcs
        simp only [List.length_drop] at this
        omega
      have h3 : (streamBytes rem2).length ≤ (streamBytes rem).length := by
        rw [hsplit]
        simp
      omega
    have hrec := ih rem2 r2 hvrem2 hr2 hdisj2 hflatcs hbound2
    simp only [pushAndDrainAll, hpush, hdrain, hrec]
    rw [hrem, List.map_append]

/-- Claim C2: split-delivery invariance.  Feeding the concatenated bytes of
any list of valid frames to a fresh decoder in arbitrarily many push calls
of arbitrary sizes, draining next_frame after each push, yields the same
frame sequence as feeding all bytes in a single push call, namely exactly
the encoded frames in order. -/
theorem c2_split_delivery (cfg : DecoderConfig) (ps : List EncodeFrameParams)
    (chunks : List (List Nat)) (hv : ∀ p ∈ ps, ValidParams cfg p)
    (hchunks : flat chunks = streamBytes ps)
    (hbound : (streamBytes ps).length ≤ cfg.max_buffer_len) :
    pushAndDrainAll (FrameDecoder.new cfg) chunks =
      (⟨cfg, []⟩, ps.map expectedFrame) ∧
    pushAndDrainAll (FrameDecoder.new cfg) [streamBytes ps] =
      (⟨cfg, []⟩, ps.map expectedFrame) := by
  constructor
  · apply pushDrain_inv cfg chunks ps [] hv (by simp) (Or.inl rfl)
      (by simpa using hchunks)
    simp only [List.length_nil, Nat.zero_add]
    rw [show (flat chunks).length = (streamBytes ps).length by rw [hchunks]]
    omega
  · apply pushDrain_inv cfg [streamBytes ps] ps [] hv (by simp) (Or.inl rfl)
      (by simp [flat])
    simp only [List.length_nil, Nat.zero_add]
    simp [flat]
    omega

theorem c2_split_delivery_witness :
    pushAndDrainAll (FrameDecoder.new .default)
      [(streamBytes [⟨3, 0, 0, 1, [1, 2, 3, 4, 5, 6, 7, 8]⟩,
          ⟨3, 0, 0, 2, []⟩]).take 10,
        (streamBytes [⟨3, 0, 0, 1, [1, 2, 3, 4, 5, 6, 7, 8]⟩,
          ⟨3, 0, 0, 2, []⟩]).drop 10] =
      (⟨.default, []⟩,
        [⟨3, 0, 0, 1, [1, 2, 3, 4, 5, 6, 7, 8]⟩,
          (⟨3, 0, 0, 2, []⟩ : EncodeFrameParams)].map expectedFrame) ∧
    pushAndDrainAll (FrameDecoder.new .default)
      [streamBytes [⟨3, 0, 0, 1, [1, 2, 3, 4, 5, 6, 7, 8]⟩, ⟨3, 0, 0, 2, []⟩]] =
      (⟨.default, []⟩,
        [⟨3, 0, 0, 1, [1, 2, 3, 4, 5, 6, 7, 8]⟩,
          (⟨3, 0, 0, 2, []⟩ : EncodeFrameParams)].map expectedFrame) :=
  c2_split_delivery .default
    [⟨3, 0, 0, 1, [1, 2, 3, 4, 5, 6, 7, 8]⟩, ⟨3, 0, 0, 2, []⟩] _
    (by decide) (by simp [flat]) (by decide)

/-- Claim C8: compute_backoff_ms equals min(200 * 2^min(attempt,6), 5000);
it is non-decreasing in the attempt counter, equals 200 at attempt 0, and
equals 5000 for every attempt at least 5. -/
theorem c8_backoff_policy :
    (∀ attempt : Nat, compute_backoff_ms attempt =
      min (RECONNECT_MIN_DELAY_MS * 2 ^ min attempt 6) RECONNECT_MAX_DELAY_MS) ∧
    (∀ a b : Nat, a ≤ b → compute_backoff_ms a ≤ compute_backoff_ms b) ∧
    compute_backoff_ms 0 = 200 ∧
    (∀ attempt : Nat, 5 ≤ attempt → compute_backoff_ms attempt = 5000) := by
  have hpow : ∀ a : Nat, 2 ^ min a 6 ≤ 64 := by
    intro a
    calc 2 ^ min a 6 ≤ 2 ^ 6 := Nat.pow_le_pow_right (by norm_num) (min_le_right _ _)
    _ = 64 := by norm_num
  have hform : ∀ attempt : Nat, compute_backoff_ms attempt =
      min (RECONNECT_MIN_DELAY_MS * 2 ^ min attempt 6) RECONNECT_MAX_DELAY_MS := by
    intro attempt
    simp only [compute_backoff_ms, shiftLeft_one_eq]
    have hle : RECONNECT_MIN_DELAY_MS * 2 ^ min attempt 6 ≤ 2 ^ 64 - 1 := by
      have := hpow attempt
      unfold RECONNECT_MIN_DELAY_MS
      have h1 : 200 * 2 ^ min attempt 6 ≤ 200 * 64 := by
        exact Nat.mul_le_mul_left _ this
      omega
    rw [min_eq_left hle]
  refine ⟨hform, ?_, ?_, ?_⟩
  · intro a b hab
    rw [hform a, hform b]
    have h1 : RECONNECT_MIN_DELAY_MS * 2 ^ min a 6 ≤
        RECONNECT_MIN_DELAY_MS * 2 ^ min b 6 := by
      apply Nat.mul_le_mul_left
      exact Nat.pow_le_pow_right (by norm_num) (min_le_min hab le_rfl)
    exact min_le_min h1 le_rfl
  · rw [hform 0]; norm_num [RECONNECT_MIN_DELAY_MS, RECONNECT_MAX_DELAY_MS]
  · intro attempt h5
    rw [hform attempt]
    have h1 : 5 ≤ min attempt 6 := le_min h5 (by norm_num)
    have h2 : 2 ^ 5 ≤ 2 ^ min attempt 6 := Nat.pow_le_pow_right (by norm_num) h1
    have h3 : RECONNECT_MAX_DELAY_MS ≤ RECONNECT_MIN_DELAY_MS * 2 ^ min attempt 6 := by
      unfold RECONNECT_MAX_DELAY_MS RECONNECT_MIN_DELAY_MS
      calc (5000 : Nat) ≤ 200 * 2 ^ 5 := by norm_num
      _ ≤ 200 * 2 ^ min attempt 6 := Nat.mul_le_mul_left _ h2
    exact min_eq_right h3

theorem c8_backoff_policy_witness :
    compute_backoff_ms 0 ≤ compute_backoff_ms 1 ∧ compute_backoff_ms 7 = 5000 :=
  ⟨c8_backoff_policy.2.1 0 1 (by decide), c8_backoff_policy.2.2.2 7 (by decide)⟩

end HMI
